import Mathlib

/-!
Verification of the d2 comment-automation repository.

This file shallowly embeds the scheduler/pipeline core of the repository:
  app/config.py            (COMMENT_TYPES, Settings.auto_approve_confidence)
  app/core/ai_processor.py (classify_comment, generate_reply, _needs_approval,
                            _calculate_confidence, _detect_triggers, _get_fallback_reply)
  app/core/comment_processor.py (process_comment, approve_reply)
  app/database/crud.py     (CRUDComment, CRUDReply, CRUDSettings)
  app/utils/scheduler.py   (TaskScheduler._fetch_platform_data, _post_reply,
                            process_pending_replies)

Modelling conventions: Python floats are modelled as rationals (the claims only
involve order comparisons at coarse magnitudes, where float rounding is
irrelevant); the SQLAlchemy session is modelled as an explicit record of row
lists; SQLAlchemy updates by primary key become first-match list updates;
external collaborators (OpenAI, the five platform adapters, GHL) are modelled
as oracle parameters, with exceptions as the none case of Option results.
-/

namespace D2

/-! ### String utilities

Python keyword matching uses lowercase substring containment
(ai_processor.py line 29: keyword in comment_lower) and reply length uses
whitespace word splitting (ai_processor.py line 219: len(reply.split())).
-/

/-- Character-list version of Python str.startswith used to build substring search. -/
def matchAt : List Char → List Char → Bool
  | [], _ => true
  | _ :: _, [] => false
  | a :: as, b :: bs => a == b && matchAt as bs

/-- Python substring containment: needle in haystack. -/
def containsSub (needle : List Char) : List Char → Bool
  | [] => needle.isEmpty
  | c :: rest => matchAt needle (c :: rest) || containsSub needle rest

/-- Python str.lower, modelled characterwise. -/
def strLower (s : String) : String :=
  ⟨s.data.map Char.toLower⟩

/-- Helper for wordCount: counts maximal nonblank runs; the flag records
whether the previous character was part of a word. -/
def wordCountAux : List Char → Bool → Nat
  | [], _ => 0
  | c :: rest, inWord =>
    if c.isWhitespace then wordCountAux rest false
    else (if inWord then 0 else 1) + wordCountAux rest true

/-- Python len(s.split()): number of whitespace-separated words. -/
def wordCount (s : String) : Nat :=
  wordCountAux s.data false

/-! ### Configuration (app/config.py)

The auto-approve confidence threshold (Settings.auto_approve_confidence,
default 0.8) is passed explicitly as a rational parameter named th below.
-/

/-- COMMENT_TYPES from config.py lines 69 to 95, keywords only, in Python dict
insertion order: lead, praise, question, complaint, spam. -/
def commentTypes : List (String × List String) :=
  [("lead", ["interested", "how much", "price", "buy", "want", "need", "sign up"]),
   ("praise", ["amazing", "great", "awesome", "love", "fantastic", "thank you"]),
   ("question", ["?", "how", "what", "when", "where", "why", "can you"]),
   ("complaint", ["problem", "issue", "wrong", "bad", "terrible", "hate", "disappointed"]),
   ("spam", ["click here", "follow me", "check my", "dm me", "link in bio"])]

/-! ### AI engine (app/core/ai_processor.py) -/

/-- True when some configured keyword of the given category appears as a
substring of the (already lowercased) comment text. -/
def keywordHit (lowered : String) (entry : String × List String) : Bool :=
  entry.2.any fun k => containsSub k.data lowered.data

/-- First category of commentTypes with a keyword hit, following the
for-loop over COMMENT_TYPES.items() in classify_comment (lines 28 to 34). -/
def keywordFirstMatch (lowered : String) : Option String :=
  (commentTypes.find? (keywordHit lowered)).map (·.1)

/-- AIProcessor.classify_comment. The OpenAI call is the oracle aiCls:
some (category, confidence) is a successful model response, none is an
exception (caught at lines 70 to 76, degrading to general at 0.5).
Returns (category, confidence, method). The platform argument only feeds
the prompt text, which is not modelled. -/
def classify_comment (aiCls : Option (String × ℚ)) (comment_text : String)
    (_platform : String) : String × ℚ × String :=
  match keywordFirstMatch (strLower comment_text) with
  | some cat => (cat, mkRat 85 100, "keyword")
  | none =>
    match aiCls with
    | some (t, c) => (t, c, "ai")
    | none => ("general", mkRat 1 2, "fallback")

/-- AIProcessor._needs_approval (lines 224 to 235). -/
def needs_approval (th : ℚ) (comment_type : String) (confidence : ℚ) : Bool :=
  if (comment_type == "praise" || comment_type == "general")
      && decide (th ≤ confidence) then
    false
  else if comment_type == "complaint" || comment_type == "lead" then
    true
  else
    decide (confidence < th)

/-- AIProcessor._calculate_confidence (lines 208 to 222). The decimal float
arithmetic of the source (base 0.7, adjustments 0.15, 0.1, 0.05, clamp to
the interval from 0.1 to 1.0) is carried out in integer hundredths and
converted to a rational at the end; all source constants are exact
hundredths, and the final if-chains spell out Python max and min. -/
def calculate_confidence (comment_type : String) (reply : String) : ℚ :=
  let b : Int := 70
  let b :=
    if comment_type == "praise" || comment_type == "general" then b + 15
    else if comment_type == "lead" || comment_type == "complaint" then b - 10
    else b
  let b :=
    if 20 ≤ wordCount reply ∧ wordCount reply ≤ 50 then b + 5 else b
  let b := if b ≤ 10 then 10 else b
  let b := if 100 ≤ b then 100 else b
  mkRat b 100

/-- GHL trigger lists (tags, workflows). -/
structure Triggers where
  tags : List String
  workflows : List String
  deriving Repr, DecidableEq

/-- AIProcessor._detect_triggers (lines 177 to 206). -/
def detect_triggers (comment reply comment_type : String) : Triggers :=
  let combined := strLower (comment ++ " " ++ reply)
  let hit := fun (w : String) => containsSub w.data combined.data
  let t0 : Triggers := ⟨[], []⟩
  let t1 :=
    if comment_type == "lead" || ["interested", "price", "buy", "info"].any hit then
      ⟨t0.tags ++ ["hot_lead"], t0.workflows ++ ["lead_nurture"]⟩
    else t0
  let t2 :=
    if comment_type == "complaint" || ["help", "problem", "issue"].any hit then
      ⟨t1.tags ++ ["needs_support"], t1.workflows ++ ["customer_service"]⟩
    else t1
  let t3 :=
    if comment_type == "praise" then
      ⟨t2.tags ++ ["happy_customer"], t2.workflows ++ ["testimonial_request"]⟩
    else t2
  if ["course", "program", "coaching", "consultation"].any hit then
    ⟨t3.tags ++ ["high_value_prospect"], t3.workflows ++ ["sales_followup"]⟩
  else t3

/-- AIProcessor._get_fallback_reply (lines 237 to 246); emoji omitted from the
praise and general texts, which no claim inspects. -/
def get_fallback_reply (comment_type : String) (_platform : String) : String :=
  if comment_type == "praise" then "Thank you so much for your kind words!"
  else if comment_type == "question" then "Great question! Let me get back to you on this."
  else if comment_type == "lead" then "Thanks for your interest! Please check the link in bio for more details."
  else if comment_type == "complaint" then "I appreciate your feedback and want to help. Please DM me so we can resolve this."
  else if comment_type == "general" then "Thanks for being part of this community!"
  else "Thanks for your comment!"

/-- Result record of AIProcessor.generate_reply. -/
structure GenResult where
  reply : String
  confidence : ℚ
  triggers : Triggers
  needsApproval : Bool
  deriving Repr, DecidableEq

/-- AIProcessor.generate_reply (lines 78 to 175). The OpenAI call is the
oracle aiGen: some text is the model reply, none is an exception, caught at
lines 167 to 175 and degraded to the fallback reply at confidence 0.3 with
needs_approval forced true. -/
def generate_reply (th : ℚ) (aiGen : Option String) (comment_text comment_type platform : String) : GenResult :=
  match aiGen with
  | some reply_text =>
    let conf := calculate_confidence comment_type reply_text
    { reply := reply_text
      confidence := conf
      triggers := detect_triggers comment_text reply_text comment_type
      needsApproval := needs_approval th comment_type conf }
  | none =>
    { reply := get_fallback_reply comment_type platform
      confidence := mkRat 3 10
      triggers := ⟨[], []⟩
      needsApproval := true }

/-- The status the pipeline writes on the new reply row
(comment_processor.py line 77): pending when approval is needed,
auto_approved otherwise. -/
def statusOfApproval (needsApprovalFlag : Bool) : String :=
  if needsApprovalFlag then "pending" else "auto_approved"

/-! ### Repository rows (app/database/models.py)

Only columns that the verified claims inspect are carried; timestamps are
naturals supplied by the caller as a parameter named now. -/

/-- Row of the posts table. -/
structure PostRow where
  id : Nat
  platform : String
  platform_post_id : String
  deriving Repr, DecidableEq

/-- Row of the comments table (models.py lines 36 to 59); has_reply has
column default false. -/
structure CommentRow where
  id : Nat
  post_id : Option Nat
  platform : String
  platform_comment_id : String
  author : Option String
  content : String
  comment_type : Option String
  sentiment : Option String
  confidence : Option ℚ
  has_reply : Bool
  deriving Repr, DecidableEq

/-- Row of the replies table (models.py lines 61 to 79). -/
structure ReplyRow where
  id : Nat
  comment_id : Nat
  content : String
  status : String
  reply_type : String
  platform_reply_id : Option String
  confidence : ℚ
  ghl_triggers : Triggers
  approved_by : Option String
  approved_at : Option Nat
  posted_at : Option Nat
  deriving Repr, DecidableEq

/-- The repository: one SQLAlchemy session worth of state. Rows are kept in
insertion order; the nextXId counters model autoincrementing primary keys. -/
structure DB where
  posts : List PostRow
  comments : List CommentRow
  replies : List ReplyRow
  settings : List (String × String)
  nextPostId : Nat
  nextCommentId : Nat
  nextReplyId : Nat
  deriving Repr, DecidableEq

/-- A raw comment dict handed to the pipeline by an adapter. Option fields
model dict keys that may be absent (a bracket access of an absent key is a
KeyError); metaPostRef is the coalesced metadata post_id / video_id /
media_id read with .get by the scheduler (scheduler.py line 172). -/
structure CommentData where
  platform : Option String
  platform_comment_id : Option String
  content : Option String
  author : Option String
  post_id : Option Nat
  metaPostRef : Option String
  deriving Repr, DecidableEq

/-- A raw post dict handed back by an adapter, modelled keys only. -/
structure PostData where
  platform : String
  platform_post_id : String
  deriving Repr, DecidableEq

/-! ### CRUD layer (app/database/crud.py)

SQLAlchemy query(...).filter(...).first() is List.find?, and CRUDBase.update
on a primary key is a first-match in-place list update. -/

/-- Update the first list element satisfying p by f, keep the rest. -/
def updFirst (p : α → Bool) (f : α → α) : List α → List α
  | [] => []
  | x :: xs => if p x then f x :: xs else x :: updFirst p f xs

/-- CRUDPost.get_by_platform_id. -/
def get_post_by_platform_id (db : DB) (platform ref : String) : Option PostRow :=
  db.posts.find? fun q => q.platform == platform && q.platform_post_id == ref

/-- CRUDPost.create_or_update, restricted to the modelled columns: updating
an existing post rewrites its identity columns with the values just matched,
so on the modelled columns the update branch is the identity. -/
def post_create_or_update (db : DB) (pd : PostData) : DB :=
  match get_post_by_platform_id db pd.platform pd.platform_post_id with
  | some _ => db
  | none =>
    { db with
        posts := db.posts ++
          [{ id := db.nextPostId, platform := pd.platform, platform_post_id := pd.platform_post_id }]
        nextPostId := db.nextPostId + 1 }

/-- CRUDComment.get_by_platform_id. -/
def get_comment_by_platform_id (db : DB) (platform pcid : String) : Option CommentRow :=
  db.comments.find? fun c => c.platform == platform && c.platform_comment_id == pcid

/-- CRUDComment.create_or_update (crud.py lines 111 to 119), called by the
pipeline with the enriched comment dict: the adapter dict cd plus the
classification outcome (comment_type, confidence). Fields absent from the
dict (has_reply, sentiment) are not touched on update and take their column
defaults on create. Returns the refreshed row. -/
def upsertUpd (platform pcid text : String) (cd : CommentData) (ctype : String) (conf : ℚ)
    (c : CommentRow) : CommentRow :=
  { c with
      platform := platform, platform_comment_id := pcid, content := text,
      author := cd.author.elim c.author some,
      post_id := cd.post_id.elim c.post_id some,
      comment_type := some ctype, confidence := some conf }

def newCommentRow (db : DB) (platform pcid text : String) (cd : CommentData)
    (ctype : String) (conf : ℚ) : CommentRow :=
  { id := db.nextCommentId, post_id := cd.post_id, platform := platform,
    platform_comment_id := pcid, author := cd.author, content := text,
    comment_type := some ctype, sentiment := none, confidence := some conf,
    has_reply := false }

def comment_create_or_update (db : DB) (platform pcid text : String) (cd : CommentData)
    (ctype : String) (conf : ℚ) : DB × CommentRow :=
  match get_comment_by_platform_id db platform pcid with
  | some c0 =>
    ({ db with
        comments := updFirst (fun c => c.id == c0.id)
          (upsertUpd platform pcid text cd ctype conf) db.comments },
     upsertUpd platform pcid text cd ctype conf c0)
  | none =>
    ({ db with
        comments := db.comments ++ [newCommentRow db platform pcid text cd ctype conf],
        nextCommentId := db.nextCommentId + 1 },
     newCommentRow db platform pcid text cd ctype conf)

def sentimentUpd (senti : String) (c : CommentRow) : CommentRow :=
  { c with sentiment := some senti }

/-- The sentiment update the pipeline issues after analysis
(comment_processor.py lines 65 to 71). -/
def comment_update_sentiment (db : DB) (id : Nat) (senti : String) : DB :=
  { db with comments := updFirst (fun c => c.id == id) (sentimentUpd senti) db.comments }

def repliedUpd (c : CommentRow) : CommentRow :=
  { c with has_reply := true }

/-- CRUDComment.mark_as_replied (crud.py lines 121 to 122). -/
def mark_as_replied (db : DB) (id : Nat) : DB :=
  { db with comments := updFirst (fun c => c.id == id) repliedUpd db.comments }

/-- CRUDReply.create via CRUDBase.create, with the reply dict the pipeline
builds (comment_processor.py lines 74 to 83). -/
def reply_create (db : DB) (comment_id : Nat) (content status reply_type : String)
    (conf : ℚ) (triggers : Triggers) : DB × ReplyRow :=
  let r : ReplyRow :=
    { id := db.nextReplyId, comment_id := comment_id, content := content, status := status,
      reply_type := reply_type, platform_reply_id := none, confidence := conf,
      ghl_triggers := triggers, approved_by := none, approved_at := none, posted_at := none }
  ({ db with replies := db.replies ++ [r], nextReplyId := db.nextReplyId + 1 }, r)

/-- The field update CRUDReply.approve applies to its row. -/
def approvedUpd (approver : String) (now : Nat) (r : ReplyRow) : ReplyRow :=
  { r with status := "approved", approved_at := some now, approved_by := some approver }

/-- CRUDReply.approve (crud.py lines 137 to 142); returns the refreshed row,
or none when the id does not exist (CRUDBase.update returns None then). -/
def reply_approve (db : DB) (id : Nat) (approver : String) (now : Nat) :
    DB × Option ReplyRow :=
  match db.replies.find? (fun r => r.id == id) with
  | some r0 =>
    ({ db with replies := updFirst (fun r => r.id == id) (approvedUpd approver now) db.replies },
     some (approvedUpd approver now r0))
  | none => (db, none)

/-- The field update CRUDReply.mark_as_posted applies to its row. -/
def postedUpd (prid : String) (now : Nat) (r : ReplyRow) : ReplyRow :=
  { r with status := "posted", platform_reply_id := some prid, posted_at := some now }

/-- CRUDReply.mark_as_posted (crud.py lines 147 to 152). -/
def mark_as_posted (db : DB) (id : Nat) (prid : String) (now : Nat) : DB :=
  { db with replies := updFirst (fun r => r.id == id) (postedUpd prid now) db.replies }

/-- CRUDSettings.get_value (crud.py lines 162 to 164). -/
def settings_get_value (db : DB) (key : String) : Option String :=
  (db.settings.find? fun kv => kv.1 == key).map (·.2)

/-- CRUDSettings.get_owner_active (crud.py lines 176 to 178): default string
"false" when the key is absent, then a lowercased comparison with "true". -/
def get_owner_active (db : DB) : Bool :=
  strLower ((settings_get_value db "owner_active").getD "false") == "true"

/-! ### Comment processing pipeline (app/core/comment_processor.py) -/

/-- The three OpenAI calls a single pipeline run may make, as oracles;
none is a raised exception inside the respective AIProcessor method. -/
structure AIOracle where
  classify : Option (String × ℚ)
  generate : Option String
  sentiment : Option String

/-- Observable outcome of CommentProcessor.process_comment: the success
flag plus the ids and reply status of the returned payload. -/
structure PCResult where
  success : Bool
  commentId : Option Nat
  replyId : Option Nat
  replyStatus : Option String
  deriving Repr, DecidableEq

/-- CommentProcessor.process_comment (lines 22 to 147). Reading one of the
mandatory dict keys platform (line 26), content (line 27) or
platform_comment_id (inside crud_comment.create_or_update, before any
write) raises KeyError, is caught by the blanket except at line 131 with
the session unchanged, and yields the success false payload. The GHL side
effects and analytics rows touch no comment or reply state and are not
modelled; the post-context lookup only enriches the prompt of the
generation oracle. -/
def process_comment (th : ℚ) (ai : AIOracle) (db : DB) (cd : CommentData) : DB × PCResult :=
  match cd.platform with
  | none => (db, ⟨false, none, none, none⟩)
  | some platform =>
    match cd.content with
    | none => (db, ⟨false, none, none, none⟩)
    | some comment_text =>
      let cls := classify_comment ai.classify comment_text platform
      let ctype := cls.1
      let conf := cls.2.1
      match cd.platform_comment_id with
      | none => (db, ⟨false, none, none, none⟩)
      | some pcid =>
        let step1 := comment_create_or_update db platform pcid comment_text cd ctype conf
        let dbc := step1.2
        let gen := generate_reply th ai.generate comment_text ctype platform
        let senti := ai.sentiment.getD "neutral"
        let db2 := comment_update_sentiment step1.1 dbc.id senti
        let status := statusOfApproval gen.needsApproval
        let step2 := reply_create db2 dbc.id gen.reply status "ai" gen.confidence gen.triggers
        (step2.1, ⟨true, some dbc.id, some step2.2.id, some step2.2.status⟩)

/-- CommentProcessor.approve_reply (lines 247 to 269): approve the reply,
and when the reply exists, mark its comment as replied. -/
def approve_reply (db : DB) (reply_id : Nat) (approver : String) (now : Nat) : DB × Bool :=
  let step := reply_approve db reply_id approver now
  match step.2 with
  | some r => (mark_as_replied step.1 r.comment_id, true)
  | none => (step.1, false)

/-! ### Scheduler (app/utils/scheduler.py) -/

/-- Observable scheduler events: one adapter post_reply attempt per call to
TaskScheduler._post_reply, the reply_posted observer notification, and the
new_comment notification marking one pipeline invocation. -/
inductive Ev where
  | attempt (replyId : Nat) (success : Bool)
  | postedNote (replyId : Nat) (platformReplyId : String)
  | newComment (platform pcid : String)
  deriving Repr, DecidableEq

/-- TaskScheduler._post_reply (lines 211 to 253). The adapter call is the
oracle adapterPost: some prid is a success result carrying the
platform-assigned reply id (possibly empty, line 238), none is a failure
result or a raised exception, both of which only log. -/
def post_reply (adapterPost : Nat → Option String) (db : DB) (replyId : Nat) (now : Nat) :
    DB × List Ev :=
  match adapterPost replyId with
  | some prid =>
    (mark_as_posted db replyId prid now, [Ev.attempt replyId true, Ev.postedNote replyId prid])
  | none => (db, [Ev.attempt replyId false])

/-- The snapshot CRUDReply.get_pending(db, limit=50) used by the sweep:
pending replies, most recently created first (rows are stored in creation
order, so newest first is the reverse), capped at 50. -/
def sweepTargets (db : DB) : List ReplyRow :=
  ((db.replies.filter fun r => r.status == "pending").reverse).take 50

/-- One iteration of the sweep loop (scheduler.py lines 265 to 291) over a
snapshot row r: if its confidence meets the threshold, approve it as
ai_auto, then look up its comment; when the comment's platform has a
configured integration, attempt the post. -/
def sweep_step (th : ℚ) (isConfigured : String → Bool) (adapterPost : Nat → Option String)
    (now : Nat) (db : DB) (r : ReplyRow) : DB :=
  if th ≤ r.confidence then
    let db := (reply_approve db r.id "ai_auto" now).1
    match db.comments.find? (fun c => c.id == r.comment_id) with
    | some c =>
      if isConfigured c.platform then (post_reply adapterPost db r.id now).1 else db
    | none => db
  else db

/-- TaskScheduler.process_pending_replies (lines 255 to 294): the whole
sweep is gated on the owner_active setting read from the repository. -/
def process_pending_replies (th : ℚ) (isConfigured : String → Bool)
    (adapterPost : Nat → Option String) (now : Nat) (db : DB) : DB :=
  if get_owner_active db then db
  else (sweepTargets db).foldl (sweep_step th isConfigured adapterPost now) db

/-- The auto-post decision inside the fetch loop (scheduler.py lines 195
to 203): when the owner is inactive and the pipeline result's reply is
auto_approved, post it through the adapter. -/
def maybe_auto_post (ownerActive : Bool) (adapterPost : Nat → Option String) (now : Nat)
    (db : DB) (res : PCResult) : DB × List Ev :=
  if !ownerActive && (res.replyStatus == some "auto_approved") then
    match res.replyId with
    | some rid => post_reply adapterPost db rid now
    | none => (db, [])
  else (db, [])

/-- The per-comment part of TaskScheduler._fetch_platform_data (lines 166
to 203). A missing platform or platform_comment_id key is a KeyError that
aborts the rest of this platform's loop (caught per platform at
fetch_all_comments level); a comment whose post is unknown is skipped; a
comment whose identity key already exists is skipped; otherwise the
pipeline runs and, when the owner is inactive and the resulting reply is
auto_approved, the reply is posted through the adapter. -/
def fetch_comments_loop (th : ℚ) (ownerActive : Bool) (adapterPost : Nat → Option String)
    (now : Nat) : DB → List (CommentData × AIOracle) → DB × List Ev
  | db, [] => (db, [])
  | db, (cd, ai) :: rest =>
    match cd.platform with
    | none => (db, [])
    | some p =>
      let post? :=
        match cd.metaPostRef with
        | some ref => get_post_by_platform_id db p ref
        | none => none
      match post? with
      | none => fetch_comments_loop th ownerActive adapterPost now db rest
      | some post =>
        let cd := { cd with post_id := some post.id }
        match cd.platform_comment_id with
        | none => (db, [])
        | some pcid =>
          match get_comment_by_platform_id db p pcid with
          | some _ => fetch_comments_loop th ownerActive adapterPost now db rest
          | none =>
            let proc := process_comment th ai db cd
            let posted := maybe_auto_post ownerActive adapterPost now proc.1 proc.2
            let tail := fetch_comments_loop th ownerActive adapterPost now posted.1 rest
            (tail.1, Ev.newComment p pcid :: (posted.2 ++ tail.2))

/-- TaskScheduler._fetch_platform_data for one platform: persist the
fetched posts, then run the comment loop. -/
def fetch_platform_data (th : ℚ) (ownerActive : Bool) (adapterPost : Nat → Option String)
    (now : Nat) (db : DB) (posts : List PostData) (cmts : List (CommentData × AIOracle)) :
    DB × List Ev :=
  fetch_comments_loop th ownerActive adapterPost now (posts.foldl post_create_or_update db) cmts

/-- What one configured platform contributes to a fetch cycle: its
is_configured flag, the fetched posts and comments (with the AI oracle each
comment's pipeline run will see), and its post_reply oracle. -/
structure PlatformBatch where
  configured : Bool
  posts : List PostData
  comments : List (CommentData × AIOracle)
  adapterPost : Nat → Option String

/-- One platform visit of the fetch cycle: skipped entirely when the
integration is not configured (scheduler.py line 93). -/
def fetch_batch_step (th : ℚ) (ownerActive : Bool) (now : Nat)
    (acc : DB × List Ev) (b : PlatformBatch) : DB × List Ev :=
  if b.configured then
    let step := fetch_platform_data th ownerActive b.adapterPost now acc.1 b.posts b.comments
    (step.1, acc.2 ++ step.2)
  else acc

/-- TaskScheduler.fetch_all_comments (lines 84 to 100): read owner_active
once at the start of the cycle, then visit each configured platform. -/
def fetch_all_comments (th : ℚ) (now : Nat) (db : DB) (batches : List PlatformBatch) :
    DB × List Ev :=
  batches.foldl (fetch_batch_step th (get_owner_active db) now) (db, [])

/-! ### Helper lemmas about first-match updates and lookups -/

theorem mem_updFirst_src {p : α → Bool} {f : α → α} {l : List α} {y : α}
    (h : y ∈ updFirst p f l) : y ∈ l ∨ ∃ x ∈ l, p x = true ∧ y = f x := by
  induction l with
  | nil => cases h
  | cons x xs ih =>
    simp only [updFirst] at h
    by_cases hp : p x = true
    · rw [if_pos hp] at h
      rcases List.mem_cons.mp h with h1 | h1
      · exact Or.inr ⟨x, List.mem_cons_self x xs, hp, h1⟩
      · exact Or.inl (List.mem_cons_of_mem _ h1)
    · rw [if_neg hp] at h
      rcases List.mem_cons.mp h with h1 | h1
      · exact Or.inl (h1 ▸ List.mem_cons_self x xs)
      · rcases ih h1 with h2 | ⟨x', hx', hp', he⟩
        · exact Or.inl (List.mem_cons_of_mem _ h2)
        · exact Or.inr ⟨x', List.mem_cons_of_mem _ hx', hp', he⟩

theorem mem_updFirst_of_mem {p : α → Bool} {f : α → α} {l : List α} {x : α} (h : x ∈ l) :
    x ∈ updFirst p f l ∨ (p x = true ∧ f x ∈ updFirst p f l) := by
  induction l with
  | nil => cases h
  | cons y ys ih =>
    simp only [updFirst]
    by_cases hp : p y = true
    · rw [if_pos hp]
      rcases List.mem_cons.mp h with h1 | h1
      · subst h1
        exact Or.inr ⟨hp, List.mem_cons_self _ _⟩
      · exact Or.inl (List.mem_cons_of_mem _ h1)
    · rw [if_neg hp]
      rcases List.mem_cons.mp h with h1 | h1
      · subst h1
        exact Or.inl (List.mem_cons_self _ _)
      · rcases ih h1 with h2 | ⟨hpx, h2⟩
        · exact Or.inl (List.mem_cons_of_mem _ h2)
        · exact Or.inr ⟨hpx, List.mem_cons_of_mem _ h2⟩

theorem updFirst_of_find?_some {p : α → Bool} {f : α → α} {l : List α} {x : α}
    (h : l.find? p = some x) : f x ∈ updFirst p f l := by
  induction l with
  | nil => cases h
  | cons y ys ih =>
    simp only [updFirst]
    by_cases hp : p y = true
    · rw [List.find?_cons_of_pos _ hp] at h
      rw [if_pos hp]
      cases h
      exact List.mem_cons_self _ _
    · rw [List.find?_cons_of_neg _ (by simpa using hp)] at h
      rw [if_neg hp]
      exact List.mem_cons_of_mem _ (ih h)

theorem find?_updFirst_ne {p q : α → Bool} {f : α → α}
    (h : ∀ x, p x = true → q x = false ∧ q (f x) = false) (l : List α) :
    (updFirst p f l).find? q = l.find? q := by
  induction l with
  | nil => rfl
  | cons x xs ih =>
    simp only [updFirst]
    by_cases hp : p x = true
    · rw [if_pos hp]
      rw [List.find?_cons_of_neg _ (by simp [(h x hp).2]),
          List.find?_cons_of_neg _ (by simp [(h x hp).1])]
    · rw [if_neg hp]
      by_cases hq : q x = true
      · rw [List.find?_cons_of_pos _ hq, List.find?_cons_of_pos _ hq]
      · rw [List.find?_cons_of_neg _ (by simpa using hq),
            List.find?_cons_of_neg _ (by simpa using hq)]
        exact ih

theorem find?_updFirst_self {p : α → Bool} {f : α → α}
    (h : ∀ x, p x = true → p (f x) = true) (l : List α) :
    (updFirst p f l).find? p = (l.find? p).map f := by
  induction l with
  | nil => rfl
  | cons x xs ih =>
    simp only [updFirst]
    by_cases hp : p x = true
    · rw [if_pos hp, List.find?_cons_of_pos _ hp,
          List.find?_cons_of_pos _ (h x hp)]
      rfl
    · rw [if_neg hp, List.find?_cons_of_neg _ (by simpa using hp),
          List.find?_cons_of_neg _ (by simpa using hp)]
      exact ih

theorem map_updFirst (g : α → β) {p : α → Bool} {f : α → α}
    (h : ∀ x, p x = true → g (f x) = g x) (l : List α) :
    (updFirst p f l).map g = l.map g := by
  induction l with
  | nil => rfl
  | cons x xs ih =>
    simp only [updFirst]
    by_cases hp : p x = true
    · rw [if_pos hp]
      simp [h x hp]
    · rw [if_neg hp]
      simp [ih]

theorem map_updFirst_of_nodup {β γ : Type _} [BEq γ] [LawfulBEq γ]
    (g : α → β) (key : α → γ) {f : α → α} {l : List α} {x0 : α}
    (hnd : (l.map key).Nodup) (hx0 : x0 ∈ l) (hg : g (f x0) = g x0) :
    (updFirst (fun x => key x == key x0) f l).map g = l.map g := by
  induction l with
  | nil => cases hx0
  | cons x xs ih =>
    simp only [List.map_cons, List.nodup_cons] at hnd
    simp only [updFirst]
    by_cases hp : (key x == key x0) = true
    · have hx : x = x0 := by
        rcases List.mem_cons.mp hx0 with h | h
        · exact h.symm
        · exact absurd ((beq_iff_eq.mp hp) ▸ List.mem_map_of_mem key h) hnd.1
      rw [if_pos hp]
      subst hx
      simp [hg]
    · have hx0' : x0 ∈ xs := by
        rcases List.mem_cons.mp hx0 with h | h
        · subst h
          exact absurd (by simp) hp
        · exact h
      rw [if_neg hp]
      simp [ih hnd.2 hx0']

theorem find?_key_of_mem_nodup {γ : Type _} [BEq γ] [LawfulBEq γ]
    (key : α → γ) {l : List α} {x0 : α}
    (hnd : (l.map key).Nodup) (hx0 : x0 ∈ l) :
    l.find? (fun x => key x == key x0) = some x0 := by
  induction l with
  | nil => cases hx0
  | cons x xs ih =>
    simp only [List.map_cons, List.nodup_cons] at hnd
    rcases List.mem_cons.mp hx0 with h | h
    · subst h
      rw [List.find?_cons_of_pos _ (by simp)]
    · have hne : (key x == key x0) = false := by
        rw [beq_eq_false_iff_ne]
        intro he
        exact hnd.1 (he ▸ List.mem_map_of_mem key h)
      rw [List.find?_cons_of_neg _ (by simp [hne])]
      exact ih hnd.2 h

/-! ### Small structural facts about the embedded operations -/

theorem comment_create_or_update_replies (db : DB) (p pcid t : String) (cd : CommentData)
    (ct : String) (cf : ℚ) :
    (comment_create_or_update db p pcid t cd ct cf).1.replies = db.replies := by
  unfold comment_create_or_update
  cases get_comment_by_platform_id db p pcid <;> rfl

theorem comment_create_or_update_settings (db : DB) (p pcid t : String) (cd : CommentData)
    (ct : String) (cf : ℚ) :
    (comment_create_or_update db p pcid t cd ct cf).1.settings = db.settings := by
  unfold comment_create_or_update
  cases get_comment_by_platform_id db p pcid <;> rfl

theorem reply_approve_comments (db : DB) (id : Nat) (app : String) (now : Nat) :
    (reply_approve db id app now).1.comments = db.comments := by
  unfold reply_approve
  cases db.replies.find? (fun r => r.id == id) <;> rfl

theorem post_reply_comments (ap : Nat → Option String) (db : DB) (rid now : Nat) :
    (post_reply ap db rid now).1.comments = db.comments := by
  unfold post_reply
  cases ap rid <;> rfl

theorem sweep_step_comments (th : ℚ) (cfg : String → Bool) (ap : Nat → Option String)
    (now : Nat) (db : DB) (r : ReplyRow) :
    (sweep_step th cfg ap now db r).comments = db.comments := by
  simp only [sweep_step]
  by_cases h : th ≤ r.confidence
  · rw [if_pos h, reply_approve_comments]
    cases hf : db.comments.find? (fun c => c.id == r.comment_id) with
    | none => exact reply_approve_comments db r.id "ai_auto" now
    | some c =>
      dsimp only
      by_cases hcfg : cfg c.platform = true
      · rw [if_pos hcfg, post_reply_comments, reply_approve_comments]
      · rw [if_neg hcfg]
        exact reply_approve_comments db r.id "ai_auto" now
  · rw [if_neg h]

theorem foldl_sweep_comments (th : ℚ) (cfg : String → Bool) (ap : Nat → Option String)
    (now : Nat) (l : List ReplyRow) (db : DB) :
    (l.foldl (sweep_step th cfg ap now) db).comments = db.comments := by
  induction l generalizing db with
  | nil => rfl
  | cons r rs ih => rw [List.foldl_cons, ih, sweep_step_comments]

theorem process_pending_replies_comments (th : ℚ) (cfg : String → Bool)
    (ap : Nat → Option String) (now : Nat) (db : DB) :
    (process_pending_replies th cfg ap now db).comments = db.comments := by
  unfold process_pending_replies
  by_cases h : get_owner_active db = true
  · rw [if_pos h]
  · rw [if_neg h, foldl_sweep_comments]

/-! ### Claims about the decision table and keyword classification -/

/-- Claim C1, counterexample: with the default threshold 0.8, category
"question" at confidence 0.9 is auto-approved by the code, although
question is neither praise nor general; the spec says every category other
than praise and general requires approval at every confidence. -/
theorem C1_cex :
    statusOfApproval (needs_approval (mkRat 8 10) "question" (mkRat 9 10)) = "auto_approved"
      ∧ "question" ≠ "praise" ∧ "question" ≠ "general" := by
  refine ⟨by decide, by decide, by decide⟩

/-- Claim C1, amended: complaint and lead always require approval regardless
of confidence, but the resulting status is auto_approved exactly when the
category is NOT complaint and NOT lead (not only praise or general) and the
confidence is at or above the threshold. -/
theorem C1_amended (th conf : ℚ) (cat : String) :
    statusOfApproval (needs_approval th cat conf) = "auto_approved"
      ↔ (cat ≠ "complaint" ∧ cat ≠ "lead" ∧ th ≤ conf) := by
  have hb : ∀ b : Bool, statusOfApproval b = "auto_approved" ↔ b = false := by
    intro b
    cases b <;> simp [statusOfApproval]
  rw [hb]
  unfold needs_approval
  split_ifs with h1 h2
  · simp only [Bool.and_eq_true, Bool.or_eq_true, beq_iff_eq, decide_eq_true_iff] at h1
    obtain ⟨hcat, hle⟩ := h1
    refine iff_of_true rfl ?_
    rcases hcat with h | h <;> subst h
    · exact ⟨by decide, by decide, hle⟩
    · exact ⟨by decide, by decide, hle⟩
  · refine iff_of_false (by decide) ?_
    rintro ⟨hc, hl, -⟩
    simp only [Bool.or_eq_true, beq_iff_eq] at h2
    rcases h2 with h | h
    · exact hc h
    · exact hl h
  · simp only [Bool.or_eq_true, beq_iff_eq, not_or] at h2
    simp only [decide_eq_false_iff_not, not_lt]
    exact ⟨fun hle => ⟨h2.1, h2.2, hle⟩, fun h => h.2.2⟩

/-- Claim C7, counterexample: the text "great problem" contains the
complaint keyword "problem", yet classification assigns "praise", because
the praise entry comes before the complaint entry in the COMMENT_TYPES
iteration order; so a matched keyword does not always yield its own
category. -/
theorem C7_cex :
    containsSub "problem".data (strLower "great problem").data = true
      ∧ "problem" ∈ ["problem", "issue", "wrong", "bad", "terrible", "hate", "disappointed"]
      ∧ (classify_comment none "great problem" "instagram").1 = "praise"
      ∧ "praise" ≠ "complaint" := by
  refine ⟨by decide, by decide, by decide, by decide⟩

/-- Claim C7, amended: when the lowercased text contains a configured
keyword of at least one category, classification returns the FIRST category
in the fixed COMMENT_TYPES order (lead, praise, question, complaint, spam)
that has a matching keyword, with fixed confidence 0.85 and method keyword,
bypassing the model call entirely (the result is the same for every model
oracle); in particular a text containing "how much" is always classified
lead, since lead is the first entry. -/
theorem C7_amended (ai : Option (String × ℚ)) (text platform : String) :
    (∀ cat, keywordFirstMatch (strLower text) = some cat →
        classify_comment ai text platform = (cat, mkRat 85 100, "keyword"))
    ∧ (containsSub "how much".data (strLower text).data = true →
        classify_comment ai text platform = ("lead", mkRat 85 100, "keyword")) := by
  have key : ∀ cat, keywordFirstMatch (strLower text) = some cat →
      classify_comment ai text platform = (cat, mkRat 85 100, "keyword") := by
    intro cat h
    simp [classify_comment, h]
  refine ⟨key, fun h => key "lead" ?_⟩
  have hp : keywordHit (strLower text)
      ("lead", ["interested", "how much", "price", "buy", "want", "need", "sign up"]) = true := by
    simp only [keywordHit, List.any_eq_true]
    exact ⟨"how much", by simp, h⟩
  unfold keywordFirstMatch commentTypes
  rw [List.find?_cons_of_pos _ hp]
  rfl

/-- Witness for C7_amended: the concrete text "How much is it?" is
keyword-classified as lead at confidence 0.85. -/
theorem C7_witness :
    classify_comment none "How much is it?" "youtube" = ("lead", mkRat 85 100, "keyword") :=
  (C7_amended none "How much is it?" "youtube").2 (by decide)

/-! ### Claim C10: owner_active default -/

/-- Claim C10: when no owner_active row exists in the settings store,
get_owner_active returns false, so auto-posting is permitted by default on
a fresh repository. -/
theorem C10_confirmed (db : DB) (h : settings_get_value db "owner_active" = none) :
    get_owner_active db = false := by
  unfold get_owner_active
  rw [h]
  decide

/-- Witness for C10_confirmed on the empty repository. -/
theorem C10_witness : get_owner_active ⟨[], [], [], [], 0, 0, 0⟩ = false :=
  C10_confirmed ⟨[], [], [], [], 0, 0, 0⟩ rfl

/-! ### Claim C5: the posting step -/

/-- Claim C5: the posting step makes exactly one adapter attempt; when the
adapter reports failure (or raises), the repository is left entirely
unchanged and only the failed attempt is observable, so no retry happens
within the cycle; when the adapter reports success, exactly the posted
reply row is updated, to status posted with the platform-assigned reply id
and the posting timestamp, observers are notified, and every other row is
untouched. -/
theorem C5_confirmed (ap : Nat → Option String) (db : DB) (rid now : Nat) :
    (ap rid = none → post_reply ap db rid now = (db, [Ev.attempt rid false]))
    ∧ (∀ prid, ap rid = some prid →
        (post_reply ap db rid now).2 = [Ev.attempt rid true, Ev.postedNote rid prid]
        ∧ (post_reply ap db rid now).1.comments = db.comments
        ∧ (post_reply ap db rid now).1.posts = db.posts
        ∧ (post_reply ap db rid now).1.settings = db.settings
        ∧ (post_reply ap db rid now).1.replies.find? (fun x => x.id == rid)
            = (db.replies.find? (fun x => x.id == rid)).map (postedUpd prid now)
        ∧ ∀ b, b ≠ rid →
            (post_reply ap db rid now).1.replies.find? (fun x => x.id == b)
              = db.replies.find? (fun x => x.id == b)) := by
  constructor
  · intro h
    unfold post_reply
    rw [h]
  · intro prid h
    unfold post_reply
    rw [h]
    dsimp only
    unfold mark_as_posted
    refine ⟨rfl, rfl, rfl, rfl, ?_, ?_⟩
    · dsimp only
      exact @find?_updFirst_self ReplyRow (fun x => x.id == rid) (postedUpd prid now)
        (fun x hx => hx) db.replies
    · intro b hb
      dsimp only
      apply find?_updFirst_ne
      intro x hx
      have hid : x.id = rid := by simpa using hx
      have hxb : (x.id == b) = false := by
        rw [beq_eq_false_iff_ne, hid]
        exact fun he => hb he.symm
      exact ⟨hxb, hxb⟩

/-! ### Transfer lemmas for the has_reply flag through create-or-update -/

theorem create_or_update_back (db : DB) (p pcid t : String) (cd : CommentData)
    (ct : String) (cf : ℚ) :
    ∀ c' ∈ (comment_create_or_update db p pcid t cd ct cf).1.comments,
      c'.has_reply = true → ∃ c ∈ db.comments, c.id = c'.id ∧ c.has_reply = true := by
  intro c' hm h
  unfold comment_create_or_update at hm
  revert hm
  cases hfind : get_comment_by_platform_id db p pcid with
  | some c0 =>
    intro hm
    dsimp only at hm
    rcases mem_updFirst_src hm with hm1 | ⟨x, hx, -, he⟩
    · exact ⟨c', hm1, rfl, h⟩
    · subst he
      exact ⟨x, hx, rfl, h⟩
  | none =>
    intro hm
    dsimp only at hm
    rcases List.mem_append.mp hm with hm1 | hm1
    · exact ⟨c', hm1, rfl, h⟩
    · rw [List.mem_singleton] at hm1
      subst hm1
      cases h

theorem create_or_update_fwd (db : DB) (p pcid t : String) (cd : CommentData)
    (ct : String) (cf : ℚ) :
    ∀ c ∈ db.comments, c.has_reply = true →
      ∃ c' ∈ (comment_create_or_update db p pcid t cd ct cf).1.comments,
        c'.id = c.id ∧ c'.has_reply = true := by
  intro c hm h
  unfold comment_create_or_update
  cases hfind : get_comment_by_platform_id db p pcid with
  | some c0 =>
    dsimp only
    rcases mem_updFirst_of_mem hm with hm1 | ⟨-, hm1⟩
    · exact ⟨c, hm1, rfl, h⟩
    · exact ⟨_, hm1, rfl, h⟩
  | none =>
    dsimp only
    exact ⟨c, List.mem_append.mpr (Or.inl hm), rfl, h⟩

theorem sentiment_upd_back (X : List CommentRow) (id : Nat) (s : String) :
    ∀ c' ∈ updFirst (fun c => c.id == id) (sentimentUpd s) X,
      c'.has_reply = true → ∃ c ∈ X, c.id = c'.id ∧ c.has_reply = true := by
  intro c' hm h
  rcases mem_updFirst_src hm with hm1 | ⟨x, hx, -, he⟩
  · exact ⟨c', hm1, rfl, h⟩
  · subst he
    exact ⟨x, hx, rfl, h⟩

theorem sentiment_upd_fwd (X : List CommentRow) (id : Nat) (s : String) :
    ∀ c ∈ X, c.has_reply = true →
      ∃ c' ∈ updFirst (fun c => c.id == id) (sentimentUpd s) X,
        c'.id = c.id ∧ c'.has_reply = true := by
  intro c hm h
  rcases mem_updFirst_of_mem hm with hm1 | ⟨-, hm1⟩
  · exact ⟨c, hm1, rfl, h⟩
  · exact ⟨_, hm1, rfl, h⟩

theorem process_comment_hasreply_back (th : ℚ) (ai : AIOracle) (db : DB) (cd : CommentData) :
    ∀ c' ∈ (process_comment th ai db cd).1.comments, c'.has_reply = true →
      ∃ c ∈ db.comments, c.id = c'.id ∧ c.has_reply = true := by
  obtain ⟨pl, pcf, ctf, au, pi, mr⟩ := cd
  cases pl with
  | none => exact fun c' hm h => ⟨c', hm, rfl, h⟩
  | some p =>
    cases ctf with
    | none => exact fun c' hm h => ⟨c', hm, rfl, h⟩
    | some text =>
      cases pcf with
      | none => exact fun c' hm h => ⟨c', hm, rfl, h⟩
      | some pcid =>
        intro c' hm h
        simp only [process_comment, comment_update_sentiment] at hm
        rcases sentiment_upd_back _ _ _ c' hm h with ⟨x, hx, hid, hr⟩
        rcases create_or_update_back _ _ _ _ _ _ _ x hx hr with ⟨c, hc, hid2, hr2⟩
        exact ⟨c, hc, hid2.trans hid, hr2⟩

theorem process_comment_hasreply_fwd (th : ℚ) (ai : AIOracle) (db : DB) (cd : CommentData) :
    ∀ c ∈ db.comments, c.has_reply = true →
      ∃ c' ∈ (process_comment th ai db cd).1.comments, c'.id = c.id ∧ c'.has_reply = true := by
  obtain ⟨pl, pcf, ctf, au, pi, mr⟩ := cd
  cases pl with
  | none => exact fun c hm h => ⟨c, hm, rfl, h⟩
  | some p =>
    cases ctf with
    | none => exact fun c hm h => ⟨c, hm, rfl, h⟩
    | some text =>
      cases pcf with
      | none => exact fun c hm h => ⟨c, hm, rfl, h⟩
      | some pcid =>
        intro c hm h
        rcases create_or_update_fwd db p pcid text
            ⟨some p, some pcid, some text, au, pi, mr⟩ _ _ c hm h with ⟨x, hx, hid, hr⟩
        rcases sentiment_upd_fwd _ _ _ x hx hr with ⟨c', hc', hid2, hr2⟩
        refine ⟨c', ?_, hid2.trans hid, hr2⟩
        simpa only [process_comment, comment_update_sentiment] using hc'

/-- Witness for C5_confirmed: a successful post of the single reply of a
one-reply repository. -/
theorem C5_witness :
    (post_reply (fun _ => some "abc")
        ⟨[], [], [⟨0, 0, "hi", "auto_approved", "ai", none, mkRat 9 10, ⟨[], []⟩, none, none, none⟩],
         [], 0, 0, 1⟩ 0 3).2
      = [Ev.attempt 0 true, Ev.postedNote 0 "abc"] :=
  ((C5_confirmed (fun _ => some "abc") _ 0 3).2 "abc" rfl).1

/-! ### Claim C6: failure semantics of the pipeline -/

/-- Claim C6, counterexample: when only classification fails (the
classifier oracle raises, no keyword matches) but generation succeeds, the
comment is classified general at confidence 0.5 and the pipeline carries
on: the stored reply is the generated text, not the fallback text, its
confidence is 0.9, not the claimed forced 0.3, and it is auto_approved,
not needs_approval; so a classification failure does not degrade to the
fallback reply. -/
theorem C6_cex :
    classify_comment none "zzz stuff" "youtube" = ("general", mkRat 1 2, "fallback")
    ∧ ((process_comment (mkRat 8 10)
          ⟨none, some "w w w w w w w w w w w w w w w w w w w w w w w w w", some "positive"⟩
          ⟨[], [], [], [], 0, 0, 0⟩
          ⟨some "youtube", some "yc1", some "zzz stuff", some "Al", none, none⟩).1.replies.map
        (fun r => (r.status, r.confidence, r.content)))
        = [("auto_approved", mkRat 9 10, "w w w w w w w w w w w w w w w w w w w w w w w w w")]
    ∧ mkRat 9 10 ≠ mkRat 3 10
    ∧ "w w w w w w w w w w w w w w w w w w w w w w w w w" ≠ get_fallback_reply "general" "youtube" := by
  refine ⟨by decide, by decide, by decide, by decide⟩

/-- Claim C6, amended: a generation failure (not any AI failure) degrades
to the fixed fallback reply keyed by category at confidence 0.3 with
needs_approval forced true; a classification failure alone degrades only
the classification, to category general at confidence 0.5, and the
pipeline continues; the pipeline never throws upward from AI failures, and
process_comment reports success false exactly when reading one of the
mandatory raw-comment fields platform, content or platform_comment_id
fails (platform_comment_id, read inside the comment upsert, is mandatory
too), in which case the repository is left unchanged. -/
theorem C6_amended :
    (∀ (th : ℚ) (ai : AIOracle) (db : DB) (cd : CommentData),
        ((process_comment th ai db cd).2.success = true
          ↔ (cd.platform ≠ none ∧ cd.content ≠ none ∧ cd.platform_comment_id ≠ none))
        ∧ ((process_comment th ai db cd).2.success = false → (process_comment th ai db cd).1 = db))
    ∧ (∀ (th : ℚ) (ai : AIOracle) (db : DB) (cd : CommentData) (p text pcid : String),
        cd.platform = some p → cd.content = some text → cd.platform_comment_id = some pcid →
        ai.generate = none →
        ∃ r : ReplyRow,
          (process_comment th ai db cd).1.replies = db.replies ++ [r]
          ∧ r.content = get_fallback_reply (classify_comment ai.classify text p).1 p
          ∧ r.confidence = mkRat 3 10
          ∧ r.status = "pending")
    ∧ (∀ (text p : String),
        keywordFirstMatch (strLower text) = none →
          classify_comment none text p = ("general", mkRat 1 2, "fallback")) := by
  refine ⟨?_, ?_, ?_⟩
  · intro th ai db cd
    obtain ⟨pl, pcf, ctf, au, pi, mr⟩ := cd
    cases pl with
    | none => simp [process_comment]
    | some p =>
      cases ctf with
      | none => simp [process_comment]
      | some text =>
        cases pcf with
        | none => simp [process_comment]
        | some pcid => simp [process_comment]
  · intro th ai db cd p text pcid hp hc hpc hg
    obtain ⟨pl, pcf, ctf, au, pi, mr⟩ := cd
    dsimp only at hp hc hpc
    subst hp
    subst hc
    subst hpc
    simp only [process_comment, generate_reply, hg, reply_create,
      comment_update_sentiment, comment_create_or_update_replies]
    exact ⟨_, rfl, rfl, rfl, rfl⟩
  · intro text p h
    simp [classify_comment, h]

/-- Witness for C6_amended: on the empty repository, a run whose generation
oracle raises stores the general fallback reply at confidence 0.3 as
pending. -/
theorem C6_witness :
    ∃ r : ReplyRow,
      (process_comment (mkRat 8 10) ⟨none, none, none⟩ ⟨[], [], [], [], 0, 0, 0⟩
          ⟨some "youtube", some "yc1", some "zzz", none, none, none⟩).1.replies
        = ([] : List ReplyRow) ++ [r]
      ∧ r.content = get_fallback_reply
          (classify_comment none "zzz" "youtube").1 "youtube"
      ∧ r.confidence = mkRat 3 10
      ∧ r.status = "pending" :=
  C6_amended.2.1 (mkRat 8 10) ⟨none, none, none⟩ ⟨[], [], [], [], 0, 0, 0⟩
    ⟨some "youtube", some "yc1", some "zzz", none, none, none⟩
    "youtube" "zzz" "yc1" rfl rfl rfl rfl

/-! ### Claim C9: the has_reply flag -/

/-- Claim C9, counterexample: a fully successful pipeline run on a fresh
comment leaves has_reply false even though the reply record was created;
the pipeline does not set the flag. -/
theorem C9_cex :
    ((process_comment (mkRat 8 10) ⟨none, none, none⟩ ⟨[], [], [], [], 0, 0, 0⟩
        ⟨some "youtube", some "yc1", some "zzz", none, none, none⟩).2.success = true)
    ∧ ((process_comment (mkRat 8 10) ⟨none, none, none⟩ ⟨[], [], [], [], 0, 0, 0⟩
        ⟨some "youtube", some "yc1", some "zzz", none, none, none⟩).1.comments.map
          (fun c => c.has_reply)) = [false]
    ∧ ((process_comment (mkRat 8 10) ⟨none, none, none⟩ ⟨[], [], [], [], 0, 0, 0⟩
        ⟨some "youtube", some "yc1", some "zzz", none, none, none⟩).1.replies.length = 1) := by
  refine ⟨by decide, by decide, by decide⟩

/-- Claim C9, amended: the pipeline never sets has_reply at all (a run
never turns the flag on, and a fresh comment is created with it false);
the flag is set to true only by the manual approval operation, after
CRUDReply.approve succeeds; and no modelled operation (pipeline, manual
approval, sweep, posting, in particular a failed posting attempt) ever
turns the flag from true back to false. -/
theorem C9_amended :
    (∀ (th : ℚ) (ai : AIOracle) (db : DB) (cd : CommentData),
        ∀ c' ∈ (process_comment th ai db cd).1.comments, c'.has_reply = true →
          ∃ c ∈ db.comments, c.id = c'.id ∧ c.has_reply = true)
    ∧ (∀ (th : ℚ) (ai : AIOracle) (db : DB) (cd : CommentData),
        ∀ c ∈ db.comments, c.has_reply = true →
          ∃ c' ∈ (process_comment th ai db cd).1.comments, c'.id = c.id ∧ c'.has_reply = true)
    ∧ (∀ (db : DB) (rid : Nat) (app : String) (now : Nat),
        ∀ c ∈ db.comments, c.has_reply = true →
          ∃ c' ∈ (approve_reply db rid app now).1.comments, c'.id = c.id ∧ c'.has_reply = true)
    ∧ (∀ (th : ℚ) (cfg : String → Bool) (ap : Nat → Option String) (now : Nat) (db : DB),
        (process_pending_replies th cfg ap now db).comments = db.comments)
    ∧ (∀ (ap : Nat → Option String) (db : DB) (rid now : Nat),
        (post_reply ap db rid now).1.comments = db.comments)
    ∧ (∀ (db : DB) (rid : Nat) (app : String) (now : Nat) (r0 : ReplyRow),
        db.replies.find? (fun r => r.id == rid) = some r0 →
          (approve_reply db rid app now).1.comments.find? (fun c => c.id == r0.comment_id)
            = (db.comments.find? (fun c => c.id == r0.comment_id)).map
                repliedUpd) := by
  refine ⟨process_comment_hasreply_back, process_comment_hasreply_fwd, ?_,
    process_pending_replies_comments, post_reply_comments, ?_⟩
  · intro db rid app now c hm h
    simp only [approve_reply]
    cases hfind : (reply_approve db rid app now).2 with
    | none =>
      dsimp only
      rw [reply_approve_comments]
      exact ⟨c, hm, rfl, h⟩
    | some r =>
      dsimp only
      simp only [mark_as_replied]
      rw [reply_approve_comments]
      rcases mem_updFirst_of_mem hm with hm1 | ⟨-, hm1⟩
      · exact ⟨c, hm1, rfl, h⟩
      · exact ⟨_, hm1, rfl, rfl⟩
  · intro db rid app now r0 hfind
    simp only [approve_reply, reply_approve, hfind]
    simp only [mark_as_replied]
    exact @find?_updFirst_self CommentRow (fun c => c.id == r0.comment_id)
      repliedUpd (fun x hx => hx) db.comments

/-- Witness for C9_amended: manually approving the single pending reply of
a one-comment repository marks that comment as replied. -/
theorem C9_witness :
    (approve_reply
        ⟨[], [⟨0, some 0, "youtube", "yc1", none, "hi", some "general", none, none, false⟩],
         [⟨0, 0, "re", "pending", "ai", none, mkRat 1 2, ⟨[], []⟩, none, none, none⟩],
         [], 0, 1, 1⟩ 0 "manual" 9).1.comments.find? (fun c => c.id == 0)
      = some ⟨0, some 0, "youtube", "yc1", none, "hi", some "general", none, none, true⟩ := by
  have h := C9_amended.2.2.2.2.2
      ⟨[], [⟨0, some 0, "youtube", "yc1", none, "hi", some "general", none, none, false⟩],
       [⟨0, 0, "re", "pending", "ai", none, mkRat 1 2, ⟨[], []⟩, none, none, none⟩],
       [], 0, 1, 1⟩ 0 "manual" 9
      ⟨0, 0, "re", "pending", "ai", none, mkRat 1 2, ⟨[], []⟩, none, none, none⟩ (by decide)
  rw [h]
  decide

/-! ### Claim C2: the has_reply reply-status invariant -/

/-- The invariant exactly as the spec states it: a comment with has_reply
true has at least one associated reply with status posted or auto_approved.
This definition renders the spec sentence, for comparison with what the
code maintains. -/
def reply_inv_spec (db : DB) : Prop :=
  ∀ c ∈ db.comments, c.has_reply = true →
    ∃ r ∈ db.replies, r.comment_id = c.id ∧ (r.status = "posted" ∨ r.status = "auto_approved")

instance (db : DB) : Decidable (reply_inv_spec db) := by
  unfold reply_inv_spec
  infer_instance

/-- Reply statuses that witness a set has_reply flag in the invariant the
code actually maintains. -/
def okS (s : String) : Prop := s = "approved" ∨ s = "posted" ∨ s = "auto_approved"

instance (s : String) : Decidable (okS s) := by
  unfold okS
  infer_instance

/-- The invariant the code maintains: the witnessing reply may also be
merely approved, since manual approval sets has_reply while the reply is
in status approved, before any posting. -/
def reply_inv (db : DB) : Prop :=
  ∀ c ∈ db.comments, c.has_reply = true →
    ∃ r ∈ db.replies, r.comment_id = c.id ∧ okS r.status

instance (db : DB) : Decidable (reply_inv db) := by
  unfold reply_inv
  infer_instance

/-- Transfer of reply witnesses from one reply list to another. -/
def repliesFwd (A B : List ReplyRow) : Prop :=
  ∀ r ∈ A, ∃ r' ∈ B, r'.comment_id = r.comment_id ∧ (okS r.status → okS r'.status)

theorem repliesFwd_refl (A : List ReplyRow) : repliesFwd A A :=
  fun r h => ⟨r, h, rfl, fun hh => hh⟩

theorem repliesFwd_trans {A B C : List ReplyRow}
    (h1 : repliesFwd A B) (h2 : repliesFwd B C) : repliesFwd A C := by
  intro r h
  obtain ⟨r', hm', hid', hok'⟩ := h1 r h
  obtain ⟨r'', hm'', hid'', hok''⟩ := h2 r' hm'
  exact ⟨r'', hm'', hid''.trans hid', fun hh => hok'' (hok' hh)⟩

theorem repliesFwd_updFirst {p : ReplyRow → Bool} {f : ReplyRow → ReplyRow}
    (hf : ∀ x, (f x).comment_id = x.comment_id ∧ (okS x.status → okS (f x).status))
    (L : List ReplyRow) : repliesFwd L (updFirst p f L) := by
  intro r h
  rcases mem_updFirst_of_mem h with h1 | ⟨-, h1⟩
  · exact ⟨r, h1, rfl, fun hh => hh⟩
  · exact ⟨f r, h1, (hf r).1, (hf r).2⟩

theorem reply_approve_replies_fwd (db : DB) (id : Nat) (app : String) (now : Nat) :
    repliesFwd db.replies (reply_approve db id app now).1.replies := by
  unfold reply_approve
  cases hf : db.replies.find? (fun x => x.id == id) with
  | none => exact repliesFwd_refl _
  | some r0 =>
    dsimp only
    exact @repliesFwd_updFirst (fun x => x.id == id) (approvedUpd app now)
      (fun x => ⟨rfl, fun _ => Or.inl rfl⟩) db.replies

theorem post_reply_replies_fwd (ap : Nat → Option String) (db : DB) (rid now : Nat) :
    repliesFwd db.replies (post_reply ap db rid now).1.replies := by
  unfold post_reply
  cases hap : ap rid with
  | none => exact repliesFwd_refl _
  | some prid =>
    dsimp only
    unfold mark_as_posted
    exact @repliesFwd_updFirst (fun x => x.id == rid) (postedUpd prid now)
      (fun x => ⟨rfl, fun _ => Or.inr (Or.inl rfl)⟩) db.replies

theorem sweep_step_replies_fwd (th : ℚ) (cfg : String → Bool) (ap : Nat → Option String)
    (now : Nat) (db : DB) (r' : ReplyRow) :
    repliesFwd db.replies (sweep_step th cfg ap now db r').replies := by
  simp only [sweep_step]
  by_cases hconf : th ≤ r'.confidence
  · rw [if_pos hconf]
    have h1 := reply_approve_replies_fwd db r'.id "ai_auto" now
    cases hf : (reply_approve db r'.id "ai_auto" now).1.comments.find?
        (fun c => c.id == r'.comment_id) with
    | none => exact h1
    | some c =>
      dsimp only
      by_cases hcfg : cfg c.platform = true
      · rw [if_pos hcfg]
        exact repliesFwd_trans h1 (post_reply_replies_fwd ap _ r'.id now)
      · rw [if_neg hcfg]
        exact h1
  · rw [if_neg hconf]
    exact repliesFwd_refl _

theorem foldl_sweep_replies_fwd (th : ℚ) (cfg : String → Bool) (ap : Nat → Option String)
    (now : Nat) (l : List ReplyRow) (db : DB) :
    repliesFwd db.replies ((l.foldl (sweep_step th cfg ap now) db).replies) := by
  induction l generalizing db with
  | nil => exact repliesFwd_refl _
  | cons x xs ih =>
    rw [List.foldl_cons]
    exact repliesFwd_trans (sweep_step_replies_fwd th cfg ap now db x) (ih _)

theorem process_comment_replies_mono (th : ℚ) (ai : AIOracle) (db : DB) (cd : CommentData) :
    ∀ r ∈ db.replies, r ∈ (process_comment th ai db cd).1.replies := by
  obtain ⟨pl, pcf, ctf, au, pi, mr⟩ := cd
  cases pl with
  | none => exact fun r h => h
  | some p =>
    cases ctf with
    | none => exact fun r h => h
    | some text =>
      cases pcf with
      | none => exact fun r h => h
      | some pcid =>
        intro r h
        simp only [process_comment, reply_create, comment_update_sentiment,
          comment_create_or_update_replies]
        exact List.mem_append.mpr (Or.inl h)

theorem inv_step {db db' : DB}
    (hc : ∀ c' ∈ db'.comments, c'.has_reply = true →
        ∃ c ∈ db.comments, c.id = c'.id ∧ c.has_reply = true)
    (hr : repliesFwd db.replies db'.replies) :
    reply_inv db → reply_inv db' := by
  intro h c' hmem hflag
  obtain ⟨c, hcm, hid, hcr⟩ := hc c' hmem hflag
  obtain ⟨r, hrm, hrid, hrok⟩ := h c hcm hcr
  obtain ⟨r', hrm', hrid', hrok'⟩ := hr r hrm
  exact ⟨r', hrm', by rw [hrid', hrid, hid], hrok' hrok⟩

/-- Claim C2, counterexample: starting from the empty repository, one
pipeline run on a complaint comment (pending reply) followed by one manual
approval reaches a state in which the comment has has_reply true while its
only reply is in status approved, not posted or auto_approved: the spec's
invariant fails, and manual approval is the operation that breaks it. -/
theorem C2_cex :
    reply_inv_spec ⟨[], [], [], [], 0, 0, 0⟩
    ∧ reply_inv_spec (process_comment (mkRat 8 10) ⟨none, none, none⟩ ⟨[], [], [], [], 0, 0, 0⟩
        ⟨some "youtube", some "yc1", some "problem", none, none, none⟩).1
    ∧ ¬ reply_inv_spec (approve_reply
        (process_comment (mkRat 8 10) ⟨none, none, none⟩ ⟨[], [], [], [], 0, 0, 0⟩
          ⟨some "youtube", some "yc1", some "problem", none, none, none⟩).1 0 "manual" 7).1
    ∧ ((approve_reply
        (process_comment (mkRat 8 10) ⟨none, none, none⟩ ⟨[], [], [], [], 0, 0, 0⟩
          ⟨some "youtube", some "yc1", some "problem", none, none, none⟩).1 0 "manual" 7).1.comments.map
        (fun c => c.has_reply)) = [true]
    ∧ ((approve_reply
        (process_comment (mkRat 8 10) ⟨none, none, none⟩ ⟨[], [], [], [], 0, 0, 0⟩
          ⟨some "youtube", some "yc1", some "problem", none, none, none⟩).1 0 "manual" 7).1.replies.map
        (fun r => r.status)) = ["approved"] := by
  refine ⟨by decide, by decide, by decide, by decide, by decide⟩

/-- Claim C2, amended: with the witness-status set enlarged to approved,
posted, auto_approved, the invariant holds and is preserved by every
modelled operation: pipeline processing, manual approval, the pending
sweep, and posting. -/
theorem C2_amended :
    (∀ (th : ℚ) (ai : AIOracle) (db : DB) (cd : CommentData),
        reply_inv db → reply_inv (process_comment th ai db cd).1)
    ∧ (∀ (db : DB) (rid : Nat) (app : String) (now : Nat),
        reply_inv db → reply_inv (approve_reply db rid app now).1)
    ∧ (∀ (th : ℚ) (cfg : String → Bool) (ap : Nat → Option String) (now : Nat) (db : DB),
        reply_inv db → reply_inv (process_pending_replies th cfg ap now db))
    ∧ (∀ (ap : Nat → Option String) (db : DB) (rid now : Nat),
        reply_inv db → reply_inv (post_reply ap db rid now).1) := by
  refine ⟨?_, ?_, ?_, ?_⟩
  · intro th ai db cd
    exact inv_step (process_comment_hasreply_back th ai db cd)
      (fun r h => ⟨r, process_comment_replies_mono th ai db cd r h, rfl, fun hh => hh⟩)
  · intro db rid app now hinv
    simp only [approve_reply]
    cases hf : db.replies.find? (fun x => x.id == rid) with
    | none =>
      simp only [reply_approve, hf]
      exact hinv
    | some r0 =>
      simp only [reply_approve, hf]
      simp only [mark_as_replied]
      intro c' hm hflag
      rcases mem_updFirst_src hm with h1 | ⟨x, hx, hpx, he⟩
      · obtain ⟨r, hrm, hrid, hrok⟩ := hinv c' h1 hflag
        obtain ⟨r', hrm', hrid', hrok'⟩ :=
          @repliesFwd_updFirst (fun x => x.id == rid) (approvedUpd app now)
            (fun x => ⟨rfl, fun _ => Or.inl rfl⟩) db.replies r hrm
        exact ⟨r', hrm', by rw [hrid', hrid], hrok' hrok⟩
      · subst he
        refine ⟨approvedUpd app now r0, updFirst_of_find?_some hf, ?_, Or.inl rfl⟩
        have hxid : x.id = r0.comment_id := by simpa using hpx
        simpa using hxid.symm
  · intro th cfg ap now db hinv
    unfold process_pending_replies
    by_cases h : get_owner_active db = true
    · rw [if_pos h]
      exact hinv
    · rw [if_neg h]
      refine inv_step ?_ (foldl_sweep_replies_fwd th cfg ap now (sweepTargets db) db) hinv
      intro c' hm hflag
      rw [foldl_sweep_comments] at hm
      exact ⟨c', hm, rfl, hflag⟩
  · intro ap db rid now hinv
    refine inv_step ?_ (post_reply_replies_fwd ap db rid now) hinv
    intro c' hm hflag
    rw [post_reply_comments] at hm
    exact ⟨c', hm, rfl, hflag⟩

/-- Witness for C2_amended: the pipeline run of the C2 counterexample
preserves the amended invariant from the empty repository. -/
theorem C2_witness :
    reply_inv (process_comment (mkRat 8 10) ⟨none, none, none⟩ ⟨[], [], [], [], 0, 0, 0⟩
      ⟨some "youtube", some "yc1", some "problem", none, none, none⟩).1 :=
  C2_amended.1 (mkRat 8 10) ⟨none, none, none⟩ ⟨[], [], [], [], 0, 0, 0⟩
    ⟨some "youtube", some "yc1", some "problem", none, none, none⟩ (by decide)

/-! ### Claim C4: the owner_active gate -/

theorem post_create_or_update_replies (db : DB) (pd : PostData) :
    (post_create_or_update db pd).replies = db.replies := by
  unfold post_create_or_update
  cases get_post_by_platform_id db pd.platform pd.platform_post_id <;> rfl

theorem foldl_posts_replies (posts : List PostData) (db : DB) :
    (posts.foldl post_create_or_update db).replies = db.replies := by
  induction posts generalizing db with
  | nil => rfl
  | cons p ps ih => rw [List.foldl_cons, ih, post_create_or_update_replies]

theorem statusOfApproval_ne_posted (b : Bool) : statusOfApproval b ≠ "posted" := by
  cases b <;> decide

theorem process_comment_posted_back (th : ℚ) (ai : AIOracle) (db : DB) (cd : CommentData) :
    ∀ r ∈ (process_comment th ai db cd).1.replies, r.status = "posted" → r ∈ db.replies := by
  obtain ⟨pl, pcf, ctf, au, pi, mr⟩ := cd
  cases pl with
  | none => exact fun r h _ => h
  | some p =>
    cases ctf with
    | none => exact fun r h _ => h
    | some text =>
      cases pcf with
      | none => exact fun r h _ => h
      | some pcid =>
        intro r hm hst
        simp only [process_comment, reply_create, comment_update_sentiment,
          comment_create_or_update_replies] at hm
        rcases List.mem_append.mp hm with h1 | h1
        · exact h1
        · rw [List.mem_singleton] at h1
          subst h1
          exact absurd hst (statusOfApproval_ne_posted _)

theorem maybe_auto_post_owner_true (ap : Nat → Option String) (now : Nat) (db : DB)
    (res : PCResult) : maybe_auto_post true ap now db res = (db, []) := by
  unfold maybe_auto_post
  simp

theorem fetch_loop_owner_true (th : ℚ) (ap : Nat → Option String) (now : Nat) :
    ∀ (cmts : List (CommentData × AIOracle)) (db : DB),
      (∀ e ∈ (fetch_comments_loop th true ap now db cmts).2, ∃ p i, e = Ev.newComment p i)
      ∧ (∀ r ∈ (fetch_comments_loop th true ap now db cmts).1.replies,
          r.status = "posted" → r ∈ db.replies) := by
  intro cmts
  induction cmts with
  | nil =>
    intro db
    exact ⟨fun e he => absurd he (List.not_mem_nil e), fun r h _ => h⟩
  | cons hd rest ih =>
    intro db
    obtain ⟨cd, ai⟩ := hd
    obtain ⟨pl, pcf, ctf, au, pi, mr⟩ := cd
    cases pl with
    | none =>
      exact ⟨fun e he => absurd he (List.not_mem_nil e), fun r h _ => h⟩
    | some p =>
      cases mr with
      | none => exact ih db
      | some ref =>
        simp only [fetch_comments_loop]
        cases hpost : get_post_by_platform_id db p ref with
        | none => exact ih db
        | some post =>
          dsimp only
          cases pcf with
          | none =>
            exact ⟨fun e he => absurd he (List.not_mem_nil e), fun r h _ => h⟩
          | some pcid =>
            dsimp only
            cases hex : get_comment_by_platform_id db p pcid with
            | some c0 => exact ih db
            | none =>
              dsimp only
              rw [maybe_auto_post_owner_true]
              dsimp only
              constructor
              · intro e he
                rcases List.mem_cons.mp he with he1 | he1
                · exact ⟨p, pcid, he1⟩
                · rw [List.nil_append] at he1
                  exact (ih _).1 e he1
              · intro r hm hst
                have hr1 := (ih _).2 r hm hst
                exact process_comment_posted_back th ai db _ r hr1 hst

theorem fetch_platform_owner_true (th : ℚ) (ap : Nat → Option String) (now : Nat)
    (db : DB) (posts : List PostData) (cmts : List (CommentData × AIOracle)) :
    (∀ e ∈ (fetch_platform_data th true ap now db posts cmts).2, ∃ p i, e = Ev.newComment p i)
    ∧ (∀ r ∈ (fetch_platform_data th true ap now db posts cmts).1.replies,
        r.status = "posted" → r ∈ db.replies) := by
  unfold fetch_platform_data
  obtain ⟨h1, h2⟩ := fetch_loop_owner_true th ap now cmts (posts.foldl post_create_or_update db)
  refine ⟨h1, fun r hm hs => ?_⟩
  have h3 := h2 r hm hs
  rwa [foldl_posts_replies] at h3

theorem fetch_batches_owner_true (th : ℚ) (now : Nat) (bs : List PlatformBatch) :
    ∀ (acc : DB × List Ev),
      (∀ e ∈ acc.2, ∃ p i, e = Ev.newComment p i) →
      (∀ e ∈ (bs.foldl (fetch_batch_step th true now) acc).2, ∃ p i, e = Ev.newComment p i)
      ∧ (∀ r ∈ (bs.foldl (fetch_batch_step th true now) acc).1.replies,
          r.status = "posted" → r ∈ acc.1.replies) := by
  induction bs with
  | nil => exact fun acc hacc => ⟨hacc, fun r h _ => h⟩
  | cons b bs ih =>
    intro acc hacc
    rw [List.foldl_cons]
    by_cases hcfg : b.configured = true
    · have hstep := fetch_platform_owner_true th b.adapterPost now acc.1 b.posts b.comments
      have hnext := ih (fetch_batch_step th true now acc b) (by
        simp only [fetch_batch_step, if_pos hcfg]
        intro e he
        rcases List.mem_append.mp he with he1 | he1
        · exact hacc e he1
        · exact hstep.1 e he1)
      refine ⟨hnext.1, fun r hm hs => ?_⟩
      have h4 := hnext.2 r hm hs
      simp only [fetch_batch_step, if_pos hcfg] at h4
      exact hstep.2 r h4 hs
    · have hstep : fetch_batch_step th true now acc b = acc := by
        simp [fetch_batch_step, hcfg]
      rw [hstep]
      exact ih acc hacc

/-- Claim C4: when owner_active reads true at the start of a cycle, the
fetch cycle produces only new_comment notifications (no posting attempt,
no reply_posted notification), a reply that ends the cycle in status
posted was already posted before the cycle, and the pending sweep leaves
the repository entirely unchanged. -/
theorem C4_confirmed (th : ℚ) (now : Nat) (db : DB) (batches : List PlatformBatch)
    (h : get_owner_active db = true) :
    (∀ e ∈ (fetch_all_comments th now db batches).2, ∃ p i, e = Ev.newComment p i)
    ∧ (∀ r ∈ (fetch_all_comments th now db batches).1.replies,
        r.status = "posted" → r ∈ db.replies)
    ∧ (∀ (cfg : String → Bool) (ap : Nat → Option String) (now2 : Nat),
        process_pending_replies th cfg ap now2 db = db) := by
  unfold fetch_all_comments
  rw [h]
  obtain ⟨h1, h2⟩ := fetch_batches_owner_true th now batches (db, [])
    (fun e he => absurd he (List.not_mem_nil e))
  refine ⟨h1, h2, fun cfg ap now2 => ?_⟩
  unfold process_pending_replies
  rw [if_pos h]

/-- Witness for C4_confirmed: with owner_active set to true, the pending
sweep leaves a repository holding one eligible pending reply entirely
unchanged. -/
theorem C4_witness :
    process_pending_replies (mkRat 8 10) (fun _ => true) (fun _ => some "x") 0
        ⟨[], [⟨0, some 0, "youtube", "yc1", none, "hi", some "general", none, none, false⟩],
         [⟨0, 0, "re", "pending", "ai", none, mkRat 9 10, ⟨[], []⟩, none, none, none⟩],
         [("owner_active", "true")], 0, 1, 1⟩
      = ⟨[], [⟨0, some 0, "youtube", "yc1", none, "hi", some "general", none, none, false⟩],
         [⟨0, 0, "re", "pending", "ai", none, mkRat 9 10, ⟨[], []⟩, none, none, none⟩],
         [("owner_active", "true")], 0, 1, 1⟩ :=
  (C4_confirmed (mkRat 8 10) 0
    ⟨[], [⟨0, some 0, "youtube", "yc1", none, "hi", some "general", none, none, false⟩],
     [⟨0, 0, "re", "pending", "ai", none, mkRat 9 10, ⟨[], []⟩, none, none, none⟩],
     [("owner_active", "true")], 0, 1, 1⟩ [] (by decide)).2.2
    (fun _ => true) (fun _ => some "x") 0

/-! ### Claim C8: comment deduplication by identity key -/

/-- The comment identity key (platform, platform_comment_id). -/
def comment_key (c : CommentRow) : String × String := (c.platform, c.platform_comment_id)

/-- Well-formedness of the comments table: primary keys distinct, identity
keys distinct, primary keys below the autoincrement counter. -/
def comments_ok (db : DB) : Prop :=
  (db.comments.map fun c => c.id).Nodup
  ∧ (db.comments.map comment_key).Nodup
  ∧ ∀ c ∈ db.comments, c.id < db.nextCommentId

instance (db : DB) : Decidable (comments_ok db) := by
  unfold comments_ok
  infer_instance

theorem get_comment_none_key {db : DB} {p i : String}
    (h : get_comment_by_platform_id db p i = none) :
    (p, i) ∉ db.comments.map comment_key := by
  intro hmem
  rw [List.mem_map] at hmem
  obtain ⟨c, hc, hkey⟩ := hmem
  have hfa := List.find?_eq_none.mp h c hc
  unfold comment_key at hkey
  rw [Prod.mk.injEq] at hkey
  simp [hkey.1, hkey.2] at hfa

theorem comments_ok_of_eq {db db' : DB} (hc : db'.comments = db.comments)
    (hn : db'.nextCommentId = db.nextCommentId) (h : comments_ok db) : comments_ok db' := by
  unfold comments_ok at h ⊢
  rw [hc, hn]
  exact h

theorem create_or_update_comments_some (db : DB) (p i t : String) (cd : CommentData)
    (ct : String) (cf : ℚ) (c0 : CommentRow)
    (hf : get_comment_by_platform_id db p i = some c0) :
    (comment_create_or_update db p i t cd ct cf).1.comments
      = updFirst (fun c => c.id == c0.id) (upsertUpd p i t cd ct cf) db.comments := by
  unfold comment_create_or_update
  rw [hf]

theorem create_or_update_next_some (db : DB) (p i t : String) (cd : CommentData)
    (ct : String) (cf : ℚ) (c0 : CommentRow)
    (hf : get_comment_by_platform_id db p i = some c0) :
    (comment_create_or_update db p i t cd ct cf).1.nextCommentId = db.nextCommentId := by
  unfold comment_create_or_update
  rw [hf]

theorem create_or_update_comments_none (db : DB) (p i t : String) (cd : CommentData)
    (ct : String) (cf : ℚ) (hf : get_comment_by_platform_id db p i = none) :
    (comment_create_or_update db p i t cd ct cf).1.comments
      = db.comments ++ [newCommentRow db p i t cd ct cf] := by
  unfold comment_create_or_update
  rw [hf]

theorem create_or_update_next_none (db : DB) (p i t : String) (cd : CommentData)
    (ct : String) (cf : ℚ) (hf : get_comment_by_platform_id db p i = none) :
    (comment_create_or_update db p i t cd ct cf).1.nextCommentId = db.nextCommentId + 1 := by
  unfold comment_create_or_update
  rw [hf]

theorem create_or_update_comments_ok (db : DB) (p i t : String) (cd : CommentData)
    (ct : String) (cf : ℚ) (h : comments_ok db) :
    comments_ok (comment_create_or_update db p i t cd ct cf).1 := by
  obtain ⟨hid, hkey, hlt⟩ := h
  cases hf : get_comment_by_platform_id db p i with
  | some c0 =>
    have hc0mem : c0 ∈ db.comments := List.mem_of_find?_eq_some hf
    have hc0p := List.find?_some hf
    simp only [Bool.and_eq_true, beq_iff_eq] at hc0p
    unfold comments_ok
    rw [create_or_update_comments_some db p i t cd ct cf c0 hf,
        create_or_update_next_some db p i t cd ct cf c0 hf]
    refine ⟨?_, ?_, ?_⟩
    · rw [@map_updFirst CommentRow Nat (fun c => c.id) (fun c => c.id == c0.id)
        (upsertUpd p i t cd ct cf) (fun x _ => rfl) db.comments]
      exact hid
    · rw [@map_updFirst_of_nodup CommentRow (String × String) Nat _ _ comment_key
        (fun c => c.id) (upsertUpd p i t cd ct cf) db.comments c0 hid hc0mem ?_]
      · exact hkey
      · unfold comment_key upsertUpd
        dsimp only
        rw [hc0p.1, hc0p.2]
    · intro c hc
      rcases mem_updFirst_src hc with h1 | ⟨x, hx, -, he⟩
      · exact hlt c h1
      · subst he
        exact hlt x hx
  | none =>
    unfold comments_ok
    rw [create_or_update_comments_none db p i t cd ct cf hf,
        create_or_update_next_none db p i t cd ct cf hf]
    refine ⟨?_, ?_, ?_⟩
    · rw [List.map_append]
      refine List.Nodup.append hid (List.nodup_singleton _) ?_
      intro a ha hb
      rw [List.map_singleton, List.mem_singleton] at hb
      subst hb
      rw [List.mem_map] at ha
      obtain ⟨c, hc, hcid⟩ := ha
      exact absurd hcid (Nat.ne_of_lt (hlt c hc))
    · rw [List.map_append]
      refine List.Nodup.append hkey (List.nodup_singleton _) ?_
      intro a ha hb
      rw [List.map_singleton, List.mem_singleton] at hb
      subst hb
      exact get_comment_none_key hf ha
    · intro c hc
      rcases List.mem_append.mp hc with h1 | h1
      · exact Nat.lt_succ_of_lt (hlt c h1)
      · rw [List.mem_singleton] at h1
        subst h1
        exact Nat.lt_succ_self _

theorem comment_update_sentiment_comments (db : DB) (id : Nat) (s : String) :
    (comment_update_sentiment db id s).comments
      = updFirst (fun c => c.id == id) (sentimentUpd s) db.comments := rfl

theorem comment_update_sentiment_next (db : DB) (id : Nat) (s : String) :
    (comment_update_sentiment db id s).nextCommentId = db.nextCommentId := rfl

theorem sentiment_comments_ok (db : DB) (id : Nat) (s : String) (h : comments_ok db) :
    comments_ok (comment_update_sentiment db id s) := by
  obtain ⟨hid, hkey, hlt⟩ := h
  unfold comments_ok
  rw [comment_update_sentiment_comments, comment_update_sentiment_next]
  refine ⟨?_, ?_, ?_⟩
  · rw [@map_updFirst CommentRow Nat (fun c => c.id) (fun c => c.id == id)
      (sentimentUpd s) (fun x _ => rfl) db.comments]
    exact hid
  · rw [@map_updFirst CommentRow (String × String) comment_key (fun c => c.id == id)
      (sentimentUpd s) (fun x _ => rfl) db.comments]
    exact hkey
  · intro c hc
    rcases mem_updFirst_src hc with h1 | ⟨x, hx, -, he⟩
    · exact hlt c h1
    · subst he
      exact hlt x hx

theorem process_comment_comments_ok (th : ℚ) (ai : AIOracle) (db : DB) (cd : CommentData)
    (h : comments_ok db) : comments_ok (process_comment th ai db cd).1 := by
  obtain ⟨pl, pcf, ctf, au, pi, mr⟩ := cd
  cases pl with
  | none => exact h
  | some p =>
    cases ctf with
    | none => exact h
    | some text =>
      cases pcf with
      | none => exact h
      | some pcid =>
        simp only [process_comment]
        exact sentiment_comments_ok _ _ _
          (create_or_update_comments_ok db p pcid text _ _ _ h)

theorem create_or_update_keys_mono (db : DB) (p i t : String) (cd : CommentData)
    (ct : String) (cf : ℚ) (h : comments_ok db) :
    ∀ k ∈ db.comments.map comment_key,
      k ∈ (comment_create_or_update db p i t cd ct cf).1.comments.map comment_key := by
  intro k hk
  cases hf : get_comment_by_platform_id db p i with
  | some c0 =>
    have hc0mem : c0 ∈ db.comments := List.mem_of_find?_eq_some hf
    have hc0p := List.find?_some hf
    simp only [Bool.and_eq_true, beq_iff_eq] at hc0p
    rw [create_or_update_comments_some db p i t cd ct cf c0 hf]
    rw [@map_updFirst_of_nodup CommentRow (String × String) Nat _ _ comment_key
      (fun c => c.id) (upsertUpd p i t cd ct cf) db.comments c0 h.1 hc0mem ?_]
    · exact hk
    · unfold comment_key upsertUpd
      dsimp only
      rw [hc0p.1, hc0p.2]
  | none =>
    rw [create_or_update_comments_none db p i t cd ct cf hf]
    rw [List.map_append]
    exact List.mem_append.mpr (Or.inl hk)

theorem process_comment_keys_mono (th : ℚ) (ai : AIOracle) (db : DB) (cd : CommentData)
    (h : comments_ok db) :
    ∀ k ∈ db.comments.map comment_key,
      k ∈ (process_comment th ai db cd).1.comments.map comment_key := by
  obtain ⟨pl, pcf, ctf, au, pi, mr⟩ := cd
  cases pl with
  | none => exact fun k hk => hk
  | some p =>
    cases ctf with
    | none => exact fun k hk => hk
    | some text =>
      cases pcf with
      | none => exact fun k hk => hk
      | some pcid =>
        intro k hk
        simp only [process_comment, comment_update_sentiment, reply_create]
        rw [@map_updFirst CommentRow (String × String) comment_key
          (fun c => c.id == (comment_create_or_update db p pcid text
            ⟨some p, some pcid, some text, au, pi, mr⟩
            (classify_comment ai.classify text p).1
            (classify_comment ai.classify text p).2.1).2.id)
          (sentimentUpd (ai.sentiment.getD "neutral")) (fun x _ => rfl) _]
        exact create_or_update_keys_mono db p pcid text _ _ _ h k hk

theorem post_reply_comments_ok (ap : Nat → Option String) (db : DB) (rid now : Nat)
    (h : comments_ok db) : comments_ok (post_reply ap db rid now).1 := by
  unfold post_reply
  cases ap rid with
  | none => exact h
  | some prid => exact h

theorem post_reply_no_newComment (ap : Nat → Option String) (db : DB) (rid now : Nat) :
    ∀ e ∈ (post_reply ap db rid now).2, ∀ p i, e ≠ Ev.newComment p i := by
  unfold post_reply
  cases ap rid with
  | none =>
    intro e he p i
    rw [List.mem_singleton] at he
    subst he
    exact fun hcontra => Ev.noConfusion hcontra
  | some prid =>
    intro e he p i
    rcases List.mem_cons.mp he with h1 | h1
    · subst h1
      exact fun hcontra => Ev.noConfusion hcontra
    · rw [List.mem_singleton] at h1
      subst h1
      exact fun hcontra => Ev.noConfusion hcontra

theorem maybe_auto_post_comments (ow : Bool) (ap : Nat → Option String) (now : Nat)
    (db : DB) (res : PCResult) :
    (maybe_auto_post ow ap now db res).1.comments = db.comments := by
  unfold maybe_auto_post
  split
  · cases res.replyId with
    | none => rfl
    | some rid => exact post_reply_comments ap db rid now
  · rfl

theorem maybe_auto_post_comments_ok (ow : Bool) (ap : Nat → Option String) (now : Nat)
    (db : DB) (res : PCResult) (h : comments_ok db) :
    comments_ok (maybe_auto_post ow ap now db res).1 := by
  unfold maybe_auto_post
  split
  · cases res.replyId with
    | none => exact h
    | some rid => exact post_reply_comments_ok ap db rid now h
  · exact h

theorem maybe_auto_post_no_newComment (ow : Bool) (ap : Nat → Option String) (now : Nat)
    (db : DB) (res : PCResult) :
    ∀ e ∈ (maybe_auto_post ow ap now db res).2, ∀ p i, e ≠ Ev.newComment p i := by
  unfold maybe_auto_post
  split
  · cases res.replyId with
    | none => exact fun e he => absurd he (List.not_mem_nil e)
    | some rid => exact post_reply_no_newComment ap db rid now
  · exact fun e he => absurd he (List.not_mem_nil e)

theorem post_create_or_update_comments (db : DB) (pd : PostData) :
    (post_create_or_update db pd).comments = db.comments := by
  unfold post_create_or_update
  cases get_post_by_platform_id db pd.platform pd.platform_post_id <;> rfl

theorem post_create_or_update_nextCommentId (db : DB) (pd : PostData) :
    (post_create_or_update db pd).nextCommentId = db.nextCommentId := by
  unfold post_create_or_update
  cases get_post_by_platform_id db pd.platform pd.platform_post_id <;> rfl

theorem foldl_posts_comments (posts : List PostData) (db : DB) :
    (posts.foldl post_create_or_update db).comments = db.comments := by
  induction posts generalizing db with
  | nil => rfl
  | cons p ps ih => rw [List.foldl_cons, ih, post_create_or_update_comments]

theorem foldl_posts_nextCommentId (posts : List PostData) (db : DB) :
    (posts.foldl post_create_or_update db).nextCommentId = db.nextCommentId := by
  induction posts generalizing db with
  | nil => rfl
  | cons p ps ih => rw [List.foldl_cons, ih, post_create_or_update_nextCommentId]

theorem fetch_loop_dedup (th : ℚ) (owner : Bool) (ap : Nat → Option String) (now : Nat) :
    ∀ (cmts : List (CommentData × AIOracle)) (db : DB), comments_ok db →
      comments_ok (fetch_comments_loop th owner ap now db cmts).1
      ∧ (∀ k ∈ db.comments.map comment_key,
          k ∈ (fetch_comments_loop th owner ap now db cmts).1.comments.map comment_key)
      ∧ (∀ p i, (p, i) ∈ db.comments.map comment_key →
          Ev.newComment p i ∉ (fetch_comments_loop th owner ap now db cmts).2) := by
  intro cmts
  induction cmts with
  | nil =>
    intro db h
    exact ⟨h, fun k hk => hk, fun p i _ => List.not_mem_nil _⟩
  | cons hd rest ih =>
    intro db h
    obtain ⟨cd, ai⟩ := hd
    obtain ⟨pl, pcf, ctf, au, pi, mr⟩ := cd
    cases pl with
    | none => exact ⟨h, fun k hk => hk, fun p i _ => List.not_mem_nil _⟩
    | some p =>
      cases mr with
      | none => exact ih db h
      | some ref =>
        simp only [fetch_comments_loop]
        cases hpost : get_post_by_platform_id db p ref with
        | none => exact ih db h
        | some post =>
          dsimp only
          cases pcf with
          | none => exact ⟨h, fun k hk => hk, fun p' i _ => List.not_mem_nil _⟩
          | some pcid =>
            dsimp only
            cases hex : get_comment_by_platform_id db p pcid with
            | some c0 => exact ih db h
            | none =>
              dsimp only
              have hok1 := process_comment_comments_ok th ai db
                ⟨some p, some pcid, ctf, au, some post.id, some ref⟩ h
              have hkeys1 := process_comment_keys_mono th ai db
                ⟨some p, some pcid, ctf, au, some post.id, some ref⟩ h
              have hok2 := maybe_auto_post_comments_ok owner ap now _
                (process_comment th ai db ⟨some p, some pcid, ctf, au, some post.id, some ref⟩).2 hok1
              have hcm2 := maybe_auto_post_comments owner ap now
                (process_comment th ai db ⟨some p, some pcid, ctf, au, some post.id, some ref⟩).1
                (process_comment th ai db ⟨some p, some pcid, ctf, au, some post.id, some ref⟩).2
              obtain ⟨ihok, ihkeys, ihev⟩ := ih _ hok2
              refine ⟨ihok, ?_, ?_⟩
              · intro k hk
                apply ihkeys
                rw [hcm2]
                exact hkeys1 k hk
              · intro p' i' hk hmem
                rcases List.mem_cons.mp hmem with he | he
                · have : (p, pcid) ∈ db.comments.map comment_key := by
                    rw [Ev.newComment.injEq] at he
                    rw [he.1, he.2] at hk
                    exact hk
                  exact get_comment_none_key hex this
                · rcases List.mem_append.mp he with he1 | he1
                  · exact maybe_auto_post_no_newComment owner ap now _ _ _ he1 p' i' rfl
                  · refine ihev p' i' ?_ he1
                    rw [hcm2]
                    exact hkeys1 _ hk

theorem fetch_platform_dedup (th : ℚ) (owner : Bool) (ap : Nat → Option String) (now : Nat)
    (db : DB) (posts : List PostData) (cmts : List (CommentData × AIOracle))
    (h : comments_ok db) :
    comments_ok (fetch_platform_data th owner ap now db posts cmts).1
    ∧ (∀ k ∈ db.comments.map comment_key,
        k ∈ (fetch_platform_data th owner ap now db posts cmts).1.comments.map comment_key)
    ∧ (∀ p i, (p, i) ∈ db.comments.map comment_key →
        Ev.newComment p i ∉ (fetch_platform_data th owner ap now db posts cmts).2) := by
  unfold fetch_platform_data
  have hbase : comments_ok (posts.foldl post_create_or_update db) :=
    comments_ok_of_eq (foldl_posts_comments posts db) (foldl_posts_nextCommentId posts db) h
  obtain ⟨h1, h2, h3⟩ := fetch_loop_dedup th owner ap now cmts
    (posts.foldl post_create_or_update db) hbase
  refine ⟨h1, ?_, ?_⟩
  · intro k hk
    apply h2
    rw [foldl_posts_comments]
    exact hk
  · intro p i hk
    apply h3
    rw [foldl_posts_comments]
    exact hk

theorem fetch_batches_dedup (th : ℚ) (ow : Bool) (now : Nat) :
    ∀ (bs : List PlatformBatch) (acc : DB × List Ev), comments_ok acc.1 →
      comments_ok (bs.foldl (fetch_batch_step th ow now) acc).1
      ∧ (∀ k ∈ acc.1.comments.map comment_key,
          k ∈ (bs.foldl (fetch_batch_step th ow now) acc).1.comments.map comment_key)
      ∧ (∀ p i, (p, i) ∈ acc.1.comments.map comment_key →
          Ev.newComment p i ∉ acc.2 →
          Ev.newComment p i ∉ (bs.foldl (fetch_batch_step th ow now) acc).2) := by
  intro bs
  induction bs with
  | nil =>
    intro acc h
    exact ⟨h, fun k hk => hk, fun p i _ hnm => hnm⟩
  | cons b rest ih =>
    intro acc h
    rw [List.foldl_cons]
    by_cases hcfg : b.configured = true
    · have hstep := fetch_platform_dedup th ow b.adapterPost now acc.1 b.posts b.comments h
      have hstepdb : (fetch_batch_step th ow now acc b).1
          = (fetch_platform_data th ow b.adapterPost now acc.1 b.posts b.comments).1 := by
        simp [fetch_batch_step, hcfg]
      have hstepev : (fetch_batch_step th ow now acc b).2
          = acc.2 ++ (fetch_platform_data th ow b.adapterPost now acc.1 b.posts b.comments).2 := by
        simp [fetch_batch_step, hcfg]
      obtain ⟨ihok, ihkeys, ihev⟩ := ih (fetch_batch_step th ow now acc b)
        (by rw [hstepdb]; exact hstep.1)
      refine ⟨ihok, ?_, ?_⟩
      · intro k hk
        apply ihkeys
        rw [hstepdb]
        exact hstep.2.1 k hk
      · intro p i hk hnm
        apply ihev p i
        · rw [hstepdb]
          exact hstep.2.1 _ hk
        · rw [hstepev]
          intro hmem
          rcases List.mem_append.mp hmem with h1 | h1
          · exact hnm h1
          · exact hstep.2.2 p i hk h1
    · have hskip : fetch_batch_step th ow now acc b = acc := by
        simp [fetch_batch_step, hcfg]
      rw [hskip]
      exact ih acc h

/-- Claim C8: a fetch cycle preserves well-formedness of the comments
table, in particular at most one Comment row exists per (platform,
platform_comment_id) identity key after any number of cycles, and the
pipeline (whose invocation is marked by the new_comment notification it
always triggers) is never invoked for a comment whose identity key is
already present in the repository. -/
theorem C8_confirmed (th : ℚ) (now : Nat) (db : DB) (batches : List PlatformBatch)
    (h : comments_ok db) :
    comments_ok (fetch_all_comments th now db batches).1
    ∧ ∀ p i, (p, i) ∈ db.comments.map comment_key →
        Ev.newComment p i ∉ (fetch_all_comments th now db batches).2 := by
  unfold fetch_all_comments
  obtain ⟨h1, h2, h3⟩ := fetch_batches_dedup th (get_owner_active db) now batches (db, []) h
  exact ⟨h1, fun p i hk => h3 p i hk (List.not_mem_nil _)⟩

/-- Witness for C8_confirmed: a cycle whose adapter returns a comment whose
identity key is already stored does not invoke the pipeline for it and
keeps the table well-formed. -/
theorem C8_witness :
    comments_ok (fetch_all_comments (mkRat 8 10) 0
        ⟨[⟨0, "youtube", "v1"⟩],
         [⟨0, some 0, "youtube", "yc1", none, "hi", some "general", none, none, false⟩],
         [], [], 1, 1, 0⟩
        [⟨true, [], [(⟨some "youtube", some "yc1", some "hello", none, none, some "v1"⟩,
          ⟨none, some "w", some "positive"⟩)], fun _ => some "x"⟩]).1
    ∧ Ev.newComment "youtube" "yc1" ∉ (fetch_all_comments (mkRat 8 10) 0
        ⟨[⟨0, "youtube", "v1"⟩],
         [⟨0, some 0, "youtube", "yc1", none, "hi", some "general", none, none, false⟩],
         [], [], 1, 1, 0⟩
        [⟨true, [], [(⟨some "youtube", some "yc1", some "hello", none, none, some "v1"⟩,
          ⟨none, some "w", some "positive"⟩)], fun _ => some "x"⟩]).2 := by
  have h := C8_confirmed (mkRat 8 10) 0
    ⟨[⟨0, "youtube", "v1"⟩],
     [⟨0, some 0, "youtube", "yc1", none, "hi", some "general", none, none, false⟩],
     [], [], 1, 1, 0⟩
    [⟨true, [], [(⟨some "youtube", some "yc1", some "hello", none, none, some "v1"⟩,
      ⟨none, some "w", some "positive"⟩)], fun _ => some "x"⟩] (by decide)
  exact ⟨h.1, h.2 "youtube" "yc1" (by decide)⟩

/-! ### Claim C3: the pending-reply sweep promotion -/

theorem sweep_step_find_ne (th : ℚ) (cfg : String → Bool) (ap : Nat → Option String)
    (now : Nat) (db : DB) (r' : ReplyRow) (b : Nat) (hne : b ≠ r'.id) :
    (sweep_step th cfg ap now db r').replies.find? (fun x => x.id == b)
      = db.replies.find? (fun x => x.id == b) := by
  have hup : ∀ (x : ReplyRow), (x.id == r'.id) = true → (x.id == b) = false := by
    intro x hx
    have hid : x.id = r'.id := by simpa using hx
    rw [beq_eq_false_iff_ne, hid]
    exact fun he => hne he.symm
  simp only [sweep_step]
  by_cases hconf : th ≤ r'.confidence
  · rw [if_pos hconf]
    have happrove : (reply_approve db r'.id "ai_auto" now).1.replies.find? (fun x => x.id == b)
        = db.replies.find? (fun x => x.id == b) := by
      unfold reply_approve
      cases hf : db.replies.find? (fun x => x.id == r'.id) with
      | none => rfl
      | some r0 =>
        dsimp only
        apply find?_updFirst_ne
        intro x hx
        exact ⟨hup x hx, hup x hx⟩
    cases hfc : (reply_approve db r'.id "ai_auto" now).1.comments.find?
        (fun c => c.id == r'.comment_id) with
    | none => exact happrove
    | some c =>
      dsimp only
      by_cases hcfg : cfg c.platform = true
      · rw [if_pos hcfg]
        have hpost : (post_reply ap (reply_approve db r'.id "ai_auto" now).1 r'.id
              now).1.replies.find? (fun x => x.id == b)
            = (reply_approve db r'.id "ai_auto" now).1.replies.find? (fun x => x.id == b) := by
          unfold post_reply
          cases ap r'.id with
          | none => rfl
          | some prid =>
            dsimp only
            unfold mark_as_posted
            apply find?_updFirst_ne
            intro x hx
            exact ⟨hup x hx, hup x hx⟩
        rw [hpost, happrove]
      · rw [if_neg hcfg]
        exact happrove
  · rw [if_neg hconf]

theorem foldl_sweep_find_ne (th : ℚ) (cfg : String → Bool) (ap : Nat → Option String)
    (now : Nat) (b : Nat) :
    ∀ (l : List ReplyRow), (∀ x ∈ l, x.id ≠ b) → ∀ db : DB,
      ((l.foldl (sweep_step th cfg ap now) db).replies.find? (fun x => x.id == b))
        = db.replies.find? (fun x => x.id == b) := by
  intro l
  induction l with
  | nil => exact fun _ db => rfl
  | cons x xs ih =>
    intro hall db
    rw [List.foldl_cons,
        ih (fun y hy => hall y (List.mem_cons_of_mem _ hy)) (sweep_step th cfg ap now db x)]
    exact sweep_step_find_ne th cfg ap now db x b
      (fun he => hall x (List.mem_cons_self _ _) he.symm)

theorem sweepTargets_subset (db : DB) : ∀ r ∈ sweepTargets db, r ∈ db.replies := by
  intro r h
  unfold sweepTargets at h
  have h1 := List.take_subset 50 _ h
  rw [List.mem_reverse] at h1
  exact List.mem_of_mem_filter h1

theorem sweepTargets_status (db : DB) : ∀ r ∈ sweepTargets db, r.status = "pending" := by
  intro r h
  unfold sweepTargets at h
  have h1 := List.take_subset 50 _ h
  rw [List.mem_reverse] at h1
  have h2 := List.of_mem_filter h1
  simpa using h2

theorem sweepTargets_ids_nodup (db : DB) (h : (db.replies.map fun x => x.id).Nodup) :
    ((sweepTargets db).map fun x => x.id).Nodup := by
  unfold sweepTargets
  have h1 : ((db.replies.filter fun r => r.status == "pending").map fun x => x.id).Nodup :=
    List.Nodup.sublist (List.Sublist.map _ (List.filter_sublist _)) h
  have h2 : (((db.replies.filter fun r => r.status == "pending").reverse).map
      fun x => x.id).Nodup := by
    rw [List.map_reverse]
    exact List.nodup_reverse.mpr h1
  exact List.Nodup.sublist (List.Sublist.map _ (List.take_sublist _ _)) h2

theorem sweep_step_hit (th : ℚ) (cfg : String → Bool) (ap : Nat → Option String) (now : Nat)
    (db : DB) (r : ReplyRow) (c : CommentRow) (prid : String)
    (hfind : db.replies.find? (fun x => x.id == r.id) = some r)
    (hconf : th ≤ r.confidence)
    (hc : db.comments.find? (fun x => x.id == r.comment_id) = some c)
    (hcfg : cfg c.platform = true)
    (hap : ap r.id = some prid) :
    (sweep_step th cfg ap now db r).replies.find? (fun x => x.id == r.id)
      = some (postedUpd prid now (approvedUpd "ai_auto" now r)) := by
  simp only [sweep_step]
  rw [if_pos hconf, reply_approve_comments, hc]
  dsimp only
  rw [if_pos hcfg]
  unfold post_reply
  rw [hap]
  dsimp only
  unfold mark_as_posted
  rw [@find?_updFirst_self ReplyRow (fun x => x.id == r.id) (postedUpd prid now)
    (fun x hx => hx) ((reply_approve db r.id "ai_auto" now).1.replies)]
  unfold reply_approve
  rw [hfind]
  dsimp only
  rw [@find?_updFirst_self ReplyRow (fun x => x.id == r.id) (approvedUpd "ai_auto" now)
    (fun x hx => hx) db.replies]
  rw [hfind]
  rfl

/-- The repository of the C3 counterexample: fifty-one pending replies at
confidence 0.9, no comments, owner inactive. -/
def dbFiftyOne : DB :=
  { posts := [], comments := [],
    replies := (List.range 51).map
      (fun i => ⟨i, 0, "t", "pending", "ai", none, mkRat 9 10, ⟨[], []⟩, none, none, none⟩),
    settings := [], nextPostId := 0, nextCommentId := 0, nextReplyId := 51 }

/-- Claim C3, counterexample: the sweep scans only
CRUDReply.get_pending(db, limit=50), the fifty most recent pending
replies; with fifty-one pending replies above the threshold, the oldest
one (id 0) is still pending after a single sweep call even though
owner_active is false, its confidence 0.9 exceeds the threshold 0.8, and
the adapter would succeed. -/
theorem C3_cex :
    ((dbFiftyOne.replies.find? (fun x => x.id == 0)).map (fun r => (r.status, r.confidence)))
      = some ("pending", mkRat 9 10)
    ∧ get_owner_active dbFiftyOne = false
    ∧ (((process_pending_replies (mkRat 8 10) (fun _ => true) (fun _ => some "ok") 0
          dbFiftyOne).replies.find? (fun x => x.id == 0)).map (fun r => r.status))
        = some "pending" := by
  set_option maxRecDepth 10000 in
  refine ⟨by decide, by decide, by decide⟩

/-- Claim C3, amended: for every reply among the (at most fifty, most
recently created first) pending replies scanned by one sweep call, with
confidence at or above the threshold, owner_active false, an existing
owning comment whose platform integration is configured, and a successful
adapter post call, a single sweep call promotes the reply to approved with
approver ai_auto and on to posted, recording the platform reply id and the
posting timestamp. -/
theorem C3_amended (th : ℚ) (cfg : String → Bool) (ap : Nat → Option String) (now : Nat)
    (db : DB) (r : ReplyRow) (c : CommentRow) (prid : String)
    (hnd : (db.replies.map fun x => x.id).Nodup)
    (hmem : r ∈ sweepTargets db)
    (howner : get_owner_active db = false)
    (hconf : th ≤ r.confidence)
    (hc : db.comments.find? (fun x => x.id == r.comment_id) = some c)
    (hcfg : cfg c.platform = true)
    (hap : ap r.id = some prid) :
    r.status = "pending"
    ∧ (process_pending_replies th cfg ap now db).replies.find? (fun x => x.id == r.id)
        = some (postedUpd prid now (approvedUpd "ai_auto" now r)) := by
  refine ⟨sweepTargets_status db r hmem, ?_⟩
  unfold process_pending_replies
  rw [if_neg (by rw [howner]; exact Bool.false_ne_true)]
  obtain ⟨l1, l2, hsplit⟩ := List.append_of_mem hmem
  have hndT := sweepTargets_ids_nodup db hnd
  rw [hsplit, List.map_append, List.map_cons, List.nodup_append] at hndT
  obtain ⟨hnd1, hnd2, hdisj⟩ := hndT
  have h2 : ∀ x ∈ l2, x.id ≠ r.id := by
    intro x hx he
    exact (List.nodup_cons.mp hnd2).1 (he ▸ List.mem_map_of_mem _ hx)
  have h1 : ∀ x ∈ l1, x.id ≠ r.id := by
    intro x hx he
    exact hdisj (List.mem_map_of_mem _ hx) (by rw [he]; exact List.mem_cons_self _ _)
  rw [hsplit, List.foldl_append, List.foldl_cons]
  rw [foldl_sweep_find_ne th cfg ap now r.id l2 h2 _]
  have hbase : (l1.foldl (sweep_step th cfg ap now) db).replies.find? (fun x => x.id == r.id)
      = some r := by
    rw [foldl_sweep_find_ne th cfg ap now r.id l1 h1 db]
    exact @find?_key_of_mem_nodup ReplyRow Nat _ _ (fun x => x.id) db.replies r hnd
      (sweepTargets_subset db r hmem)
  exact sweep_step_hit th cfg ap now _ r c prid hbase hconf
    (by rw [foldl_sweep_comments]; exact hc) hcfg hap

/-- Witness for C3_amended: a single pending reply at confidence 0.82 with
threshold 0.8 ends the sweep posted, approved by ai_auto. -/
theorem C3_witness :
    (process_pending_replies (mkRat 8 10) (fun _ => true) (fun _ => some "pr") 5
        ⟨[], [⟨0, some 0, "youtube", "yc1", none, "hi", some "question", none,
               some (mkRat 1 2), false⟩],
         [⟨0, 0, "re", "pending", "ai", none, mkRat 82 100, ⟨[], []⟩, none, none, none⟩],
         [], 0, 1, 1⟩).replies.find? (fun x => x.id == 0)
      = some (postedUpd "pr" 5 (approvedUpd "ai_auto" 5
          ⟨0, 0, "re", "pending", "ai", none, mkRat 82 100, ⟨[], []⟩, none, none, none⟩)) :=
  (C3_amended (mkRat 8 10) (fun _ => true) (fun _ => some "pr") 5
    ⟨[], [⟨0, some 0, "youtube", "yc1", none, "hi", some "question", none,
           some (mkRat 1 2), false⟩],
     [⟨0, 0, "re", "pending", "ai", none, mkRat 82 100, ⟨[], []⟩, none, none, none⟩],
     [], 0, 1, 1⟩
    ⟨0, 0, "re", "pending", "ai", none, mkRat 82 100, ⟨[], []⟩, none, none, none⟩
    ⟨0, some 0, "youtube", "yc1", none, "hi", some "question", none, some (mkRat 1 2), false⟩
    "pr" (by decide) (by decide) (by decide) (by decide) (by decide) rfl rfl).2

end D2
